import Mathlib

/-!
Verification development for the marker list/table post-processors.

The development shallowly embeds two source files:

* `marker/processors/list.py` — `ListProcessor.list_group_continuation` and
  `ListProcessor.list_group_indentation` (two passes plus placeholder
  injection);
* `marker/processors/llm/llm_cross_page_table.py` —
  `LLMCrossPageTableProcessor.find_cross_page_table_pairs`,
  `get_column_count`, `find_cell_at_location`, `apply_corrections` and
  `apply_single_correction`.

Geometry is modelled over `ℚ` (the Python code runs on floats; all the
operations used — comparison, addition, multiplication, floor division —
are exact on rationals).  Python lists become `List`, `None`-able values
become `Option`, and in-place mutation of cells/blocks becomes functional
update at an index.
-/

set_option maxRecDepth 4000

/- Batteries marks rational arithmetic `@[irreducible]`, which stops
`decide` from evaluating the geometric definitions below on concrete
rational inputs; restore reducibility for this file. -/
attribute [local semireducible] Rat.add Rat.mul Rat.sub Rat.inv

namespace Marker

/-! ## Python string primitives

Cell text manipulation in `apply_single_correction` uses Python's
`" ".join`, `str.replace`, `str.strip`, `str.split()` and the substring
test `frag in text`.  They are modelled character-wise so that every
definition is structural and kernel-reducible.
-/

/-- First occurrence of `sep` inside `l`: returns the part before and the
part after the occurrence.  `none` when `sep` does not occur.  Mirrors the
scanning Python's `str.find` performs. -/
def firstSplit (sep : List Char) : List Char → Option (List Char × List Char)
  | [] => if sep.isPrefixOf ([] : List Char) then some ([], []) else none
  | c :: rest =>
    if sep.isPrefixOf (c :: rest) then some ([], (c :: rest).drop sep.length)
    else (firstSplit sep rest).map (fun p => (c :: p.1, p.2))

/-- Split on every (non-overlapping, left-to-right) occurrence of `sep`.
Fuel-indexed so the recursion is structural; the callers always supply
enough fuel (`l.length + 1`) because every step past a non-empty separator
strictly shrinks the remainder. -/
def splitOnAll (fuel : Nat) (sep : List Char) (l : List Char) : List (List Char) :=
  match fuel with
  | 0 => [l]
  | fuel + 1 =>
    match firstSplit sep l with
    | none => [l]
    | some (a, b) => a :: splitOnAll fuel sep b

/-- Python `frag in text` (substring containment). -/
def pyContains (text frag : String) : Bool :=
  (firstSplit frag.data text.data).isSome

/-- Python `text.replace(frag, "")`: removes ALL occurrences of `frag`. -/
def pyReplaceAllEmpty (text frag : String) : String :=
  ⟨List.intercalate [] (splitOnAll (text.data.length + 1) frag.data text.data)⟩

/-- Python `text.strip()`. -/
def pyStrip (text : String) : String :=
  ⟨((text.data.dropWhile Char.isWhitespace).reverse.dropWhile Char.isWhitespace).reverse⟩

/-- The words of a character list: maximal runs of non-whitespace, in
order.  Python's `text.split()` (no separator argument). -/
def wordsCh (l : List Char) : List (List Char) :=
  (l.foldr
    (fun c acc =>
      if c.isWhitespace then [] :: acc
      else
        match acc with
        | [] => [[c]]
        | w :: ws => (c :: w) :: ws)
    []).filter (fun w => w ≠ [])

/-- Python `" ".join(text.split())`: collapse internal whitespace runs. -/
def pyCollapseWs (text : String) : String :=
  ⟨List.intercalate [' '] (wordsCh text.data)⟩

/-- Python `" ".join(lines) if lines else ""`. -/
def joinLines (lines : List String) : String :=
  ⟨List.intercalate [' '] (lines.map String.data)⟩

/-! ## Table cells (`llm_cross_page_table.py`) -/

/-- `marker.schema.blocks.TableCell`, restricted to the fields this
processor reads and writes.  Modelled from the spec (§3): the cell class
itself lives outside the two source files. -/
structure TableCell where
  row_id : Int
  col_id : Int
  colspan : Nat
  text_lines : List String
deriving DecidableEq, Inhabited

/-- `CellLocationSchema`: `table_index`, `row`, `col`. -/
structure CellLoc where
  table_index : Int
  row : Int
  col : Int
deriving DecidableEq, Inhabited

inductive CType where
  | mergeCells | moveCell | removeCell | moveTextFragment
deriving DecidableEq, Inhabited

inductive CAction where
  | append | prepend | replace
deriving DecidableEq, Inhabited

/-- A parsed `CorrectionItemSchema`. -/
structure Correction where
  ctype : CType
  source : CellLoc
  target : Option CellLoc
  action : CAction
  text_fragment : Option String
deriving DecidableEq, Inhabited

/-- The pair `(cells1, cells2)` handed to `apply_corrections`. -/
abbrev CellsPair := List TableCell × List TableCell

/-- `cells1 if table_index == 0 else cells2`. -/
def cellsOf (st : CellsPair) (ti : Int) : List TableCell :=
  if ti = 0 then st.1 else st.2

def withCells (st : CellsPair) (ti : Int) (cs : List TableCell) : CellsPair :=
  if ti = 0 then (cs, st.2) else (st.1, cs)

/-- `max(cell.row_id for cell in cells) if cells else -1`. -/
def maxRowId (cells : List TableCell) : Int :=
  match cells with
  | [] => -1
  | c :: cs => cs.foldl (fun m x => max m x.row_id) c.row_id

/-- The negative-row resolution at the top of `find_cell_at_location`. -/
def resolveRow (cells : List TableCell) (row : Int) : Int :=
  if row < 0 then maxRowId cells + row + 1 else row

/-- `find_cell_at_location`, as the index of the found cell.  The Python
builds `{(row_id, col_id): cell}` by iterating the list in order, so on
duplicate `(row_id, col_id)` keys the LAST cell wins; the fold below keeps
the last matching index for the same reason. -/
def findCellIdx (cells : List TableCell) (row col : Int) : Option Nat :=
  let r := resolveRow cells row
  (List.range cells.length).foldl
    (fun acc i =>
      match cells[i]? with
      | some c => if c.row_id = r ∧ c.col_id = col then some i else acc
      | none => acc)
    none

def setLines (ls : List String) (c : TableCell) : TableCell :=
  { c with text_lines := ls }

def updateAt (cs : List TableCell) (i : Nat) (f : TableCell → TableCell) : List TableCell :=
  match cs[i]? with
  | some c => cs.set i (f c)
  | none => cs

def writeLinesAt (st : CellsPair) (ti : Int) (i : Nat) (ls : List String) : CellsPair :=
  withCells st ti (updateAt (cellsOf st ti) i (setLines ls))

def modifyLinesAt (st : CellsPair) (ti : Int) (i : Nat) (f : List String → List String) : CellsPair :=
  withCells st ti (updateAt (cellsOf st ti) i (fun c => setLines (f c.text_lines) c))

/-- The text lines of the cell at index `i` of table `ti` (used to state
the theorems; `[]` when out of range). -/
def linesAt (st : CellsPair) (ti : Int) (i : Nat) : List String :=
  (((cellsOf st ti)[i]?).map TableCell.text_lines).getD []

/-- Rewrite of the last line of a list, Python `lines[-1] += suffix`. -/
def updateLastLine (f : String → String) : List String → List String
  | [] => []
  | [x] => [f x]
  | x :: y :: xs => x :: updateLastLine f (y :: xs)

/-- The three `action` branches shared by `merge_cells` and
`move_text_fragment`: append to the last line / prepend to the first line /
replace wholesale, with `[text]` when the target has no lines. -/
def mergeInto (action : CAction) (text : String) (lines : List String) : List String :=
  match action with
  | .append =>
    match lines with
    | [] => [text]
    | x :: xs => updateLastLine (fun l => l ++ " " ++ text) (x :: xs)
  | .prepend =>
    match lines with
    | [] => [text]
    | l0 :: rest => (text ++ " " ++ l0) :: rest
  | .replace => [text]

/-- `LLMCrossPageTableProcessor.apply_single_correction`.

Each Python early-`return` (unresolvable source/target, missing
target/fragment for the requiring types, fragment not contained in the
source) leaves the state unchanged; the `AttributeError` raised when
`merge_cells`/`move_cell` get `target = None` is caught by
`apply_corrections`' per-item `except`, which also leaves the state
unchanged — both are modelled by returning `st`. -/
def apply_single_correction (st : CellsPair) (c : Correction) : CellsPair :=
  match findCellIdx (cellsOf st c.source.table_index) c.source.row c.source.col with
  | none => st
  | some sIdx =>
    match c.ctype with
    | .mergeCells =>
      match c.target with
      | none => st
      | some tLoc =>
        match findCellIdx (cellsOf st tLoc.table_index) tLoc.row tLoc.col with
        | none => st
        | some tIdx =>
          let sText := joinLines (linesAt st c.source.table_index sIdx)
          let st1 := modifyLinesAt st tLoc.table_index tIdx (mergeInto c.action sText)
          writeLinesAt st1 c.source.table_index sIdx []
    | .moveCell =>
      match c.target with
      | none => st
      | some tLoc =>
        match findCellIdx (cellsOf st tLoc.table_index) tLoc.row tLoc.col with
        | none => st
        | some tIdx =>
          let sLines := linesAt st c.source.table_index sIdx
          let st1 := writeLinesAt st tLoc.table_index tIdx sLines
          writeLinesAt st1 c.source.table_index sIdx []
    | .removeCell => writeLinesAt st c.source.table_index sIdx []
    | .moveTextFragment =>
      match c.target, c.text_fragment with
      | some tLoc, some frag =>
        if frag = "" then st
        else
          match findCellIdx (cellsOf st tLoc.table_index) tLoc.row tLoc.col with
          | none => st
          | some tIdx =>
            let sText := joinLines (linesAt st c.source.table_index sIdx)
            if pyContains sText frag then
              let remaining := pyCollapseWs (pyStrip (pyReplaceAllEmpty sText frag))
              let st1 := writeLinesAt st c.source.table_index sIdx
                (if remaining = "" then [] else [remaining])
              modifyLinesAt st1 tLoc.table_index tIdx (mergeInto c.action frag)
            else st
      | _, _ => st

/-- `apply_corrections`: fold the corrections in list order (each item's
exceptions are swallowed, see `apply_single_correction`). -/
def apply_corrections (st : CellsPair) (cs : List Correction) : CellsPair :=
  cs.foldl apply_single_correction st

/-- Two `table_index` values select the same physical cell list exactly
when they agree on being `0` (`cells1 if table_index == 0 else cells2`). -/
def sameSide (a b : Int) : Prop := (a = 0) ↔ (b = 0)

instance (a b : Int) : Decidable (sameSide a b) := by
  unfold sameSide; infer_instance

/-! ### Support lemmas about the cell-state primitives -/

theorem cellsOf_eq_of_sameSide (st : CellsPair) {a b : Int} (h : sameSide a b) :
    cellsOf st a = cellsOf st b := by
  unfold cellsOf
  by_cases ha : a = 0 <;> by_cases hb : b = 0 <;>
    simp [ha, hb, sameSide, ha, hb] at h ⊢

theorem cellsOf_withCells_same (st : CellsPair) {a b : Int} (cs : List TableCell)
    (h : sameSide a b) : cellsOf (withCells st a cs) b = cs := by
  unfold cellsOf withCells
  by_cases ha : a = 0 <;> by_cases hb : b = 0 <;>
    simp [ha, hb, sameSide, ha, hb] at h ⊢

theorem cellsOf_withCells_other (st : CellsPair) {a b : Int} (cs : List TableCell)
    (h : ¬ sameSide a b) : cellsOf (withCells st a cs) b = cellsOf st b := by
  unfold cellsOf withCells
  by_cases ha : a = 0 <;> by_cases hb : b = 0 <;>
    simp [ha, hb, sameSide, ha, hb] at h ⊢

theorem length_updateAt (cs : List TableCell) (i : Nat) (f : TableCell → TableCell) :
    (updateAt cs i f).length = cs.length := by
  unfold updateAt
  cases h : cs[i]? <;> simp

theorem getElem?_updateAt_self (cs : List TableCell) (i : Nat) (f : TableCell → TableCell) :
    (updateAt cs i f)[i]? = (cs[i]?).map f := by
  unfold updateAt
  cases h : cs[i]? with
  | none => simp [h]
  | some c =>
    have hlt : i < cs.length := by
      by_contra hh
      push_neg at hh
      rw [List.getElem?_eq_none hh] at h
      exact Option.noConfusion h
    simp [List.getElem?_set, hlt, h]

theorem getElem?_updateAt_ne (cs : List TableCell) {i j : Nat} (f : TableCell → TableCell)
    (h : i ≠ j) : (updateAt cs i f)[j]? = cs[j]? := by
  unfold updateAt
  cases hc : cs[i]? <;> simp [List.getElem?_set, h]

theorem linesAt_writeLinesAt_self (st : CellsPair) {a b : Int} (i : Nat) (ls : List String)
    (hside : sameSide a b) (hlt : i < (cellsOf st a).length) :
    linesAt (writeLinesAt st a i ls) b i = ls := by
  unfold linesAt writeLinesAt
  rw [cellsOf_withCells_same st _ hside, getElem?_updateAt_self]
  simp [List.getElem?_eq_getElem hlt, setLines]

theorem linesAt_writeLinesAt_ne_idx (st : CellsPair) {a b : Int} {i j : Nat} (ls : List String)
    (hside : sameSide a b) (hij : i ≠ j) :
    linesAt (writeLinesAt st a i ls) b j = linesAt st b j := by
  unfold linesAt writeLinesAt
  rw [cellsOf_withCells_same st _ hside, getElem?_updateAt_ne _ _ hij,
    cellsOf_eq_of_sameSide st hside]

theorem linesAt_writeLinesAt_other (st : CellsPair) {a b : Int} (i j : Nat) (ls : List String)
    (hside : ¬ sameSide a b) :
    linesAt (writeLinesAt st a i ls) b j = linesAt st b j := by
  unfold linesAt writeLinesAt
  rw [cellsOf_withCells_other st _ hside]

theorem linesAt_modifyLinesAt_self (st : CellsPair) {a b : Int} (i : Nat)
    (f : List String → List String) (hside : sameSide a b) (hlt : i < (cellsOf st a).length) :
    linesAt (modifyLinesAt st a i f) b i = f (linesAt st a i) := by
  unfold linesAt modifyLinesAt
  rw [cellsOf_withCells_same st _ hside, getElem?_updateAt_self]
  simp [List.getElem?_eq_getElem hlt, setLines]

theorem linesAt_modifyLinesAt_ne_idx (st : CellsPair) {a b : Int} {i j : Nat}
    (f : List String → List String) (hside : sameSide a b) (hij : i ≠ j) :
    linesAt (modifyLinesAt st a i f) b j = linesAt st b j := by
  unfold linesAt modifyLinesAt
  rw [cellsOf_withCells_same st _ hside, getElem?_updateAt_ne _ _ hij,
    cellsOf_eq_of_sameSide st hside]

theorem linesAt_modifyLinesAt_other (st : CellsPair) {a b : Int} (i j : Nat)
    (f : List String → List String) (hside : ¬ sameSide a b) :
    linesAt (modifyLinesAt st a i f) b j = linesAt st b j := by
  unfold linesAt modifyLinesAt
  rw [cellsOf_withCells_other st _ hside]

theorem findCellIdx_some_lt {cells : List TableCell} {r c : Int} {i : Nat}
    (h : findCellIdx cells r c = some i) : i < cells.length := by
  have gen : ∀ (l : List Nat) (acc : Option Nat),
      (∀ x ∈ l, x < cells.length) → (∀ j, acc = some j → j < cells.length) →
      ∀ j, l.foldl (fun acc i =>
          match cells[i]? with
          | some cc => if cc.row_id = resolveRow cells r ∧ cc.col_id = c then some i else acc
          | none => acc) acc = some j → j < cells.length := by
    intro l
    induction l with
    | nil => exact fun acc _ hacc j hfold => hacc j hfold
    | cons x xs ih =>
      intro acc hmem hacc j hfold
      rw [List.foldl_cons] at hfold
      refine ih _ (fun y hy => hmem y (List.mem_cons_of_mem _ hy)) ?_ j hfold
      intro j' hj'
      rcases hx : cells[x]? with _ | cc
      · simp only [hx] at hj'
        exact hacc j' hj'
      · simp only [hx] at hj'
        by_cases hcc : cc.row_id = resolveRow cells r ∧ cc.col_id = c
        · rw [if_pos hcc] at hj'
          cases hj'
          exact hmem x (List.mem_cons_self x xs)
        · rw [if_neg hcc] at hj'
          exact hacc j' hj'
  refine gen (List.range cells.length) none (fun x hx => List.mem_range.mp hx)
    (fun j hj => Option.noConfusion hj) i ?_
  simpa [findCellIdx] using h

theorem length_cellsOf_writeLinesAt (st : CellsPair) (a : Int) (i : Nat) (ls : List String)
    (b : Int) : (cellsOf (writeLinesAt st a i ls) b).length = (cellsOf st b).length := by
  unfold writeLinesAt
  by_cases h : sameSide a b
  · rw [cellsOf_withCells_same st _ h, length_updateAt, cellsOf_eq_of_sameSide st h]
  · rw [cellsOf_withCells_other st _ h]

theorem length_cellsOf_modifyLinesAt (st : CellsPair) (a : Int) (i : Nat)
    (f : List String → List String) (b : Int) :
    (cellsOf (modifyLinesAt st a i f) b).length = (cellsOf st b).length := by
  unfold modifyLinesAt
  by_cases h : sameSide a b
  · rw [cellsOf_withCells_same st _ h, length_updateAt, cellsOf_eq_of_sameSide st h]
  · rw [cellsOf_withCells_other st _ h]

/-! ### C10 — merge/move correction with source = target clears the cell -/

/-- **C10**: for a `merge_cells` or `move_cell` correction whose source and
target locations resolve to the same cell, the correction leaves that
cell's `text_lines` empty: the source-clearing assignment runs after the
target write on the same cell. -/
theorem c10_theorem (st : CellsPair) (src tl : CellLoc) (act : CAction) (fr : Option String)
    (si : Nat)
    (hs : findCellIdx (cellsOf st src.table_index) src.row src.col = some si)
    (ht : findCellIdx (cellsOf st tl.table_index) tl.row tl.col = some si)
    (_hside : sameSide src.table_index tl.table_index) :
    linesAt (apply_single_correction st ⟨.mergeCells, src, some tl, act, fr⟩)
        src.table_index si = []
    ∧ linesAt (apply_single_correction st ⟨.moveCell, src, some tl, act, fr⟩)
        src.table_index si = [] := by
  have hlt : si < (cellsOf st src.table_index).length := findCellIdx_some_lt hs
  constructor
  · simp only [apply_single_correction, hs, ht]
    refine linesAt_writeLinesAt_self _ _ _ Iff.rfl ?_
    rw [length_cellsOf_modifyLinesAt]
    exact hlt
  · simp only [apply_single_correction, hs, ht]
    refine linesAt_writeLinesAt_self _ _ _ Iff.rfl ?_
    rw [length_cellsOf_writeLinesAt]
    exact hlt

/-- Witness for C10 at a concrete state: one cell `["A"]`, merge and move
with source = target = `(0, 0, 0)`; both leave the cell empty. -/
theorem c10_witness :
    linesAt (apply_single_correction (([⟨0, 0, 1, ["A"]⟩], []) : CellsPair)
        ⟨.mergeCells, ⟨0, 0, 0⟩, some ⟨0, 0, 0⟩, .append, none⟩) 0 0 = []
    ∧ linesAt (apply_single_correction (([⟨0, 0, 1, ["A"]⟩], []) : CellsPair)
        ⟨.moveCell, ⟨0, 0, 0⟩, some ⟨0, 0, 0⟩, .append, none⟩) 0 0 = [] := by
  exact c10_theorem (([⟨0, 0, 1, ["A"]⟩], []) : CellsPair) ⟨0, 0, 0⟩ ⟨0, 0, 0⟩ .append none 0
    (by decide) (by decide) (by decide)

/-! ### C6 — merge_cells semantics -/

/-- C6 as frozen: for EVERY `merge_cells` correction with resolvable source
and target cells (not necessarily distinct), the target receives the
source's space-joined text per the action and the source is cleared. -/
def c6Claim : Prop :=
  ∀ (st : CellsPair) (src tl : CellLoc) (act : CAction) (fr : Option String) (si ti : Nat),
    findCellIdx (cellsOf st src.table_index) src.row src.col = some si →
    findCellIdx (cellsOf st tl.table_index) tl.row tl.col = some ti →
    linesAt (apply_single_correction st ⟨.mergeCells, src, some tl, act, fr⟩) tl.table_index ti
        = mergeInto act (joinLines (linesAt st src.table_index si)) (linesAt st tl.table_index ti)
      ∧ linesAt (apply_single_correction st ⟨.mergeCells, src, some tl, act, fr⟩)
          src.table_index si = []

/-- C6 fails when source and target resolve to the same cell: merging cell
`["A"]` into itself with `append` would have to produce `["A A"]`, but the
subsequent source-clearing empties the very same cell. -/
theorem c6_counterexample : ¬ c6Claim := by
  intro h
  have h1 := (h (([⟨0, 0, 1, ["A"]⟩], []) : CellsPair) ⟨0, 0, 0⟩ ⟨0, 0, 0⟩ .append none 0 0
    (by decide) (by decide)).1
  exact absurd h1 (by decide)

/-- **C6 (amended)**: the frozen claim restricted to corrections whose
source and target resolve to distinct cells; then the target's lines become
the action-combination with the source's space-joined text and the source's
lines become empty. -/
theorem c6_theorem (st : CellsPair) (src tl : CellLoc) (act : CAction) (fr : Option String)
    (si ti : Nat)
    (hs : findCellIdx (cellsOf st src.table_index) src.row src.col = some si)
    (ht : findCellIdx (cellsOf st tl.table_index) tl.row tl.col = some ti)
    (hdist : ¬ (sameSide src.table_index tl.table_index ∧ si = ti)) :
    linesAt (apply_single_correction st ⟨.mergeCells, src, some tl, act, fr⟩) tl.table_index ti
        = mergeInto act (joinLines (linesAt st src.table_index si)) (linesAt st tl.table_index ti)
      ∧ linesAt (apply_single_correction st ⟨.mergeCells, src, some tl, act, fr⟩)
          src.table_index si = [] := by
  have hlt_s : si < (cellsOf st src.table_index).length := findCellIdx_some_lt hs
  have hlt_t : ti < (cellsOf st tl.table_index).length := findCellIdx_some_lt ht
  simp only [apply_single_correction, hs, ht]
  constructor
  · by_cases hss : sameSide src.table_index tl.table_index
    · have hne : si ≠ ti := fun hh => hdist ⟨hss, hh⟩
      rw [linesAt_writeLinesAt_ne_idx _ _ hss hne,
        linesAt_modifyLinesAt_self _ _ _ Iff.rfl hlt_t]
    · rw [linesAt_writeLinesAt_other _ _ _ _ hss,
        linesAt_modifyLinesAt_self _ _ _ Iff.rfl hlt_t]
  · refine linesAt_writeLinesAt_self _ _ _ Iff.rfl ?_
    rw [length_cellsOf_modifyLinesAt]
    exact hlt_s

/-- Witness for C6 on the spec's example: source lines `["Tools"]` in table
2, target lines `["ABC Software Suite"]` in table 1, action `append`. -/
theorem c6_witness :
    linesAt (apply_single_correction
        (([⟨4, 0, 1, ["ABC Software Suite"]⟩], [⟨0, 0, 1, ["Tools"]⟩]) : CellsPair)
        ⟨.mergeCells, ⟨1, 0, 0⟩, some ⟨0, 4, 0⟩, .append, none⟩) 0 0
      = ["ABC Software Suite Tools"]
    ∧ linesAt (apply_single_correction
        (([⟨4, 0, 1, ["ABC Software Suite"]⟩], [⟨0, 0, 1, ["Tools"]⟩]) : CellsPair)
        ⟨.mergeCells, ⟨1, 0, 0⟩, some ⟨0, 4, 0⟩, .append, none⟩) 1 0 = [] := by
  have h := c6_theorem
    (([⟨4, 0, 1, ["ABC Software Suite"]⟩], [⟨0, 0, 1, ["Tools"]⟩]) : CellsPair)
    ⟨1, 0, 0⟩ ⟨0, 4, 0⟩ .append none 0 0 (by decide) (by decide) (by decide)
  exact ⟨h.1.trans (by decide), h.2⟩

/-! ### Stability of cell resolution under text edits

`find_cell_at_location` only reads `row_id`/`col_id`, and every write the
correction engine performs only touches `text_lines`; hence resolving the
same location again after a correction yields the same index. -/

def mapRowCol (cs : List TableCell) : List (Int × Int) :=
  cs.map (fun c => (c.row_id, c.col_id))

theorem set_self_of_getElem? {α : Type _} :
    ∀ (l : List α) (i : Nat) (a : α), l[i]? = some a → l.set i a = l
  | [], i, a, h => by simp at h
  | x :: xs, 0, a, h => by
    simp only [List.getElem?_cons_zero, Option.some.injEq] at h
    simp [h]
  | x :: xs, i + 1, a, h => by
    simp only [List.getElem?_cons_succ] at h
    simp [List.set, set_self_of_getElem? xs i a h]

theorem mapRowCol_updateAt (cs : List TableCell) (i : Nat) (f : TableCell → TableCell)
    (hf : ∀ c, (f c).row_id = c.row_id ∧ (f c).col_id = c.col_id) :
    mapRowCol (updateAt cs i f) = mapRowCol cs := by
  unfold updateAt
  cases hc : cs[i]? with
  | none => rfl
  | some c =>
    unfold mapRowCol
    rw [List.map_set, (hf c).1, (hf c).2]
    refine set_self_of_getElem? _ _ _ ?_
    rw [List.getElem?_map, hc]
    rfl

theorem maxRowId_congr {cs cs' : List TableCell} (h : mapRowCol cs = mapRowCol cs') :
    maxRowId cs = maxRowId cs' := by
  have hr : cs.map (fun c => c.row_id) = cs'.map (fun c => c.row_id) := by
    have := congrArg (List.map Prod.fst) h
    simpa [mapRowCol, List.map_map, Function.comp] using this
  have aux : ∀ (l : List TableCell),
      maxRowId l =
        (match l.map (fun c => c.row_id) with
          | [] => (-1 : Int)
          | x :: xs => xs.foldl max x) := by
    intro l
    cases l with
    | nil => rfl
    | cons c cs =>
      show cs.foldl (fun m x => max m x.row_id) c.row_id
          = (cs.map (fun c => c.row_id)).foldl max c.row_id
      rw [List.foldl_map]
  rw [aux, aux, hr]

theorem resolveRow_congr {cs cs' : List TableCell} (h : mapRowCol cs = mapRowCol cs')
    (r : Int) : resolveRow cs r = resolveRow cs' r := by
  unfold resolveRow
  rw [maxRowId_congr h]

theorem findCellIdx_congr {cs cs' : List TableCell} (h : mapRowCol cs = mapRowCol cs')
    (r c : Int) : findCellIdx cs r c = findCellIdx cs' r c := by
  have hlen : cs.length = cs'.length := by
    have := congrArg List.length h
    simpa [mapRowCol] using this
  have hpt : ∀ i : Nat,
      (cs[i]?).map (fun c => (c.row_id, c.col_id))
        = (cs'[i]?).map (fun c => (c.row_id, c.col_id)) := by
    intro i
    have h1 := congrArg (fun l => l[i]?) h
    simpa [mapRowCol, List.getElem?_map] using h1
  simp only [findCellIdx, hlen]
  refine List.foldl_ext _ _ _ ?_
  intro acc i hi
  have hilt' : i < cs'.length := List.mem_range.mp hi
  have hilt : i < cs.length := hlen ▸ hilt'
  have h1 := hpt i
  rw [List.getElem?_eq_getElem hilt, List.getElem?_eq_getElem hilt'] at h1
  simp only [Option.map_some', Option.some.injEq, Prod.mk.injEq] at h1
  obtain ⟨hr, hcol⟩ := h1
  simp only [List.getElem?_eq_getElem hilt, List.getElem?_eq_getElem hilt',
    resolveRow_congr h r, hr, hcol]

theorem findCellIdx_writeLinesAt (st : CellsPair) (a : Int) (i : Nat) (ls : List String)
    (b r c : Int) :
    findCellIdx (cellsOf (writeLinesAt st a i ls) b) r c = findCellIdx (cellsOf st b) r c := by
  unfold writeLinesAt
  by_cases h : sameSide a b
  · rw [cellsOf_withCells_same st _ h]
    refine findCellIdx_congr ?_ r c
    rw [mapRowCol_updateAt (cellsOf st a) i (setLines ls) (fun c => ⟨rfl, rfl⟩),
      cellsOf_eq_of_sameSide st h]
  · rw [cellsOf_withCells_other st _ h]

theorem findCellIdx_modifyLinesAt (st : CellsPair) (a : Int) (i : Nat)
    (f : List String → List String) (b r c : Int) :
    findCellIdx (cellsOf (modifyLinesAt st a i f) b) r c = findCellIdx (cellsOf st b) r c := by
  unfold modifyLinesAt
  by_cases h : sameSide a b
  · rw [cellsOf_withCells_same st _ h]
    refine findCellIdx_congr ?_ r c
    rw [mapRowCol_updateAt (cellsOf st a) i (fun c => setLines (f c.text_lines) c)
      (fun c => ⟨rfl, rfl⟩), cellsOf_eq_of_sameSide st h]
  · rw [cellsOf_withCells_other st _ h]

/-! ### C7 — double application of merge/move is NOT a no-op -/

/-- C7 as frozen: applying the same `merge_cells` or `move_cell` correction
(with distinct resolvable source and target cells) twice yields the same
cell states as applying it once. -/
def c7Claim : Prop :=
  ∀ (st : CellsPair) (t : CType) (src tl : CellLoc) (act : CAction) (fr : Option String)
    (si ti : Nat),
    (t = .mergeCells ∨ t = .moveCell) →
    findCellIdx (cellsOf st src.table_index) src.row src.col = some si →
    findCellIdx (cellsOf st tl.table_index) tl.row tl.col = some ti →
    ¬ (sameSide src.table_index tl.table_index ∧ si = ti) →
    apply_single_correction (apply_single_correction st ⟨t, src, some tl, act, fr⟩)
        ⟨t, src, some tl, act, fr⟩
      = apply_single_correction st ⟨t, src, some tl, act, fr⟩

/-- C7 fails: re-running a `move_cell` correction finds the cleared source
and moves the empty line list over the target, wiping the freshly moved
content (`["A"]`/`["B"]` → once: `[]`/`["A"]`, twice: `[]`/`[]`). -/
theorem c7_counterexample : ¬ c7Claim := by
  intro h
  have h1 := h (([⟨0, 0, 1, ["A"]⟩, ⟨1, 0, 1, ["B"]⟩], []) : CellsPair) .moveCell
    ⟨0, 0, 0⟩ ⟨0, 1, 0⟩ .append none 0 1 (Or.inr rfl) (by decide) (by decide) (by decide)
  exact absurd h1 (by decide)

/-- **C7 (amended)**: the second run of a `move_cell` correction does find
an empty source, but its contribution is not a no-op: it replaces the
target's lines with the empty list, so after applying the correction twice
BOTH the source and the target cell are empty (double application differs
from single application whenever the single application leaves the target
non-empty). -/
theorem c7_theorem (st : CellsPair) (src tl : CellLoc) (act : CAction) (fr : Option String)
    (si ti : Nat)
    (hs : findCellIdx (cellsOf st src.table_index) src.row src.col = some si)
    (ht : findCellIdx (cellsOf st tl.table_index) tl.row tl.col = some ti)
    (hdist : ¬ (sameSide src.table_index tl.table_index ∧ si = ti)) :
    linesAt (apply_single_correction
        (apply_single_correction st ⟨.moveCell, src, some tl, act, fr⟩)
        ⟨.moveCell, src, some tl, act, fr⟩) src.table_index si = []
    ∧ linesAt (apply_single_correction
        (apply_single_correction st ⟨.moveCell, src, some tl, act, fr⟩)
        ⟨.moveCell, src, some tl, act, fr⟩) tl.table_index ti = [] := by
  have hlt_s : si < (cellsOf st src.table_index).length := findCellIdx_some_lt hs
  have hlt_t : ti < (cellsOf st tl.table_index).length := findCellIdx_some_lt ht
  -- the once-applied state
  set st1 := apply_single_correction st ⟨.moveCell, src, some tl, act, fr⟩ with hst1
  have hs1 : findCellIdx (cellsOf st1 src.table_index) src.row src.col = some si := by
    rw [hst1]
    simp only [apply_single_correction, hs, ht]
    rw [findCellIdx_writeLinesAt, findCellIdx_writeLinesAt]
    exact hs
  have ht1 : findCellIdx (cellsOf st1 tl.table_index) tl.row tl.col = some ti := by
    rw [hst1]
    simp only [apply_single_correction, hs, ht]
    rw [findCellIdx_writeLinesAt, findCellIdx_writeLinesAt]
    exact ht
  have hsrc1 : linesAt st1 src.table_index si = [] := by
    rw [hst1]
    simp only [apply_single_correction, hs, ht]
    refine linesAt_writeLinesAt_self _ _ _ Iff.rfl ?_
    rw [length_cellsOf_writeLinesAt]
    exact hlt_s
  have hlt_s1 : si < (cellsOf st1 src.table_index).length := by
    rw [hst1]
    simp only [apply_single_correction, hs, ht]
    rw [length_cellsOf_writeLinesAt, length_cellsOf_writeLinesAt]
    exact hlt_s
  have hlt_t1 : ti < (cellsOf st1 tl.table_index).length := by
    rw [hst1]
    simp only [apply_single_correction, hs, ht]
    rw [length_cellsOf_writeLinesAt, length_cellsOf_writeLinesAt]
    exact hlt_t
  simp only [apply_single_correction, hs1, ht1]
  constructor
  · refine linesAt_writeLinesAt_self _ _ _ Iff.rfl ?_
    rw [length_cellsOf_writeLinesAt]
    exact hlt_s1
  · by_cases hss : sameSide src.table_index tl.table_index
    · have hne : si ≠ ti := fun hh => hdist ⟨hss, hh⟩
      rw [linesAt_writeLinesAt_ne_idx _ _ hss hne,
        linesAt_writeLinesAt_self _ _ _ Iff.rfl hlt_t1, hsrc1]
    · rw [linesAt_writeLinesAt_other _ _ _ _ hss,
        linesAt_writeLinesAt_self _ _ _ Iff.rfl hlt_t1, hsrc1]

/-- Witness for C7 (amended): the `["A"]`/`["B"]` state from the
counterexample; applying the move twice leaves both cells empty. -/
theorem c7_witness :
    linesAt (apply_single_correction
        (apply_single_correction (([⟨0, 0, 1, ["A"]⟩, ⟨1, 0, 1, ["B"]⟩], []) : CellsPair)
          ⟨.moveCell, ⟨0, 0, 0⟩, some ⟨0, 1, 0⟩, .append, none⟩)
        ⟨.moveCell, ⟨0, 0, 0⟩, some ⟨0, 1, 0⟩, .append, none⟩) 0 0 = []
    ∧ linesAt (apply_single_correction
        (apply_single_correction (([⟨0, 0, 1, ["A"]⟩, ⟨1, 0, 1, ["B"]⟩], []) : CellsPair)
          ⟨.moveCell, ⟨0, 0, 0⟩, some ⟨0, 1, 0⟩, .append, none⟩)
        ⟨.moveCell, ⟨0, 0, 0⟩, some ⟨0, 1, 0⟩, .append, none⟩) 0 1 = [] := by
  exact c7_theorem (([⟨0, 0, 1, ["A"]⟩, ⟨1, 0, 1, ["B"]⟩], []) : CellsPair)
    ⟨0, 0, 0⟩ ⟨0, 1, 0⟩ .append none 0 1 (by decide) (by decide) (by decide)

/-! ### C5 — move_text_fragment semantics -/

/-- Removal of exactly the FIRST occurrence of `frag` — this is what the
frozen claim asserts the engine does.  (Second definition following the
spec's words, to be compared with `pyReplaceAllEmpty` from the source.) -/
def removeFirstOccurrence (text frag : String) : String :=
  match firstSplit frag.data text.data with
  | none => text
  | some (a, b) => ⟨a ++ b⟩

/-- C5 as frozen: a `move_text_fragment` correction with resolvable,
distinct source/target cells and non-empty fragment is a no-op when the
fragment is not a substring of the source's joined text; otherwise exactly
the FIRST occurrence is removed from the source (whitespace collapsed,
single-line or empty result) and the fragment is combined into the target
per the action. -/
def c5Claim : Prop :=
  ∀ (st : CellsPair) (src tl : CellLoc) (act : CAction) (f : String) (si ti : Nat),
    findCellIdx (cellsOf st src.table_index) src.row src.col = some si →
    findCellIdx (cellsOf st tl.table_index) tl.row tl.col = some ti →
    f ≠ "" →
    ¬ (sameSide src.table_index tl.table_index ∧ si = ti) →
    (pyContains (joinLines (linesAt st src.table_index si)) f = false →
      apply_single_correction st ⟨.moveTextFragment, src, some tl, act, some f⟩ = st)
    ∧ (pyContains (joinLines (linesAt st src.table_index si)) f = true →
      (linesAt (apply_single_correction st ⟨.moveTextFragment, src, some tl, act, some f⟩)
          src.table_index si
        = (if pyCollapseWs (pyStrip
              (removeFirstOccurrence (joinLines (linesAt st src.table_index si)) f)) = ""
           then []
           else [pyCollapseWs (pyStrip
              (removeFirstOccurrence (joinLines (linesAt st src.table_index si)) f))]))
      ∧ linesAt (apply_single_correction st ⟨.moveTextFragment, src, some tl, act, some f⟩)
          tl.table_index ti
        = mergeInto act f (linesAt st tl.table_index ti))

/-- C5 fails because the source uses `str.replace(frag, "")`, which removes
ALL occurrences, not just the first: with source text `"ab ab"` and
fragment `"ab"`, the claim predicts the source keeps one `"ab"`, while the
code leaves it entirely empty. -/
theorem c5_counterexample : ¬ c5Claim := by
  intro h
  have h1 := ((h (([⟨0, 0, 1, ["ab ab"]⟩], [⟨0, 0, 1, []⟩]) : CellsPair)
    ⟨0, 0, 0⟩ ⟨1, 0, 0⟩ .append "ab" 0 0
    (by decide) (by decide) (by decide) (by decide)).2 (by decide)).1
  exact absurd h1 (by decide)

/-- **C5 (amended)**: as the frozen claim, except that ALL occurrences of
the fragment are removed from the source's joined text (Python
`str.replace(frag, "")`), then stripped and whitespace-collapsed. -/
theorem c5_theorem (st : CellsPair) (src tl : CellLoc) (act : CAction) (f : String)
    (si ti : Nat)
    (hs : findCellIdx (cellsOf st src.table_index) src.row src.col = some si)
    (ht : findCellIdx (cellsOf st tl.table_index) tl.row tl.col = some ti)
    (hf : f ≠ "")
    (hdist : ¬ (sameSide src.table_index tl.table_index ∧ si = ti)) :
    (pyContains (joinLines (linesAt st src.table_index si)) f = false →
      apply_single_correction st ⟨.moveTextFragment, src, some tl, act, some f⟩ = st)
    ∧ (pyContains (joinLines (linesAt st src.table_index si)) f = true →
      (linesAt (apply_single_correction st ⟨.moveTextFragment, src, some tl, act, some f⟩)
          src.table_index si
        = (if pyCollapseWs (pyStrip
              (pyReplaceAllEmpty (joinLines (linesAt st src.table_index si)) f)) = ""
           then []
           else [pyCollapseWs (pyStrip
              (pyReplaceAllEmpty (joinLines (linesAt st src.table_index si)) f))]))
      ∧ linesAt (apply_single_correction st ⟨.moveTextFragment, src, some tl, act, some f⟩)
          tl.table_index ti
        = mergeInto act f (linesAt st tl.table_index ti)) := by
  have hlt_s : si < (cellsOf st src.table_index).length := findCellIdx_some_lt hs
  have hlt_t : ti < (cellsOf st tl.table_index).length := findCellIdx_some_lt ht
  constructor
  · intro hc
    simp only [apply_single_correction, hs, ht, if_neg hf, hc]
    simp
  · intro hc
    constructor
    · simp only [apply_single_correction, hs, ht, if_neg hf, hc, if_pos]
      by_cases hss : sameSide src.table_index tl.table_index
      · have hne : ti ≠ si := fun hh => hdist ⟨hss, hh.symm⟩
        rw [linesAt_modifyLinesAt_ne_idx _ _ hss.symm hne,
          linesAt_writeLinesAt_self _ _ _ Iff.rfl hlt_s]
      · have hss' : ¬ sameSide tl.table_index src.table_index := fun hh =>
          hss ⟨hh.mpr, hh.mp⟩
        rw [linesAt_modifyLinesAt_other _ _ _ _ hss',
          linesAt_writeLinesAt_self _ _ _ Iff.rfl hlt_s]
    · simp only [apply_single_correction, hs, ht, if_neg hf, hc, if_pos]
      have hlt_t' : ti < (cellsOf (writeLinesAt st src.table_index si
          (if pyCollapseWs (pyStrip
              (pyReplaceAllEmpty (joinLines (linesAt st src.table_index si)) f)) = ""
           then []
           else [pyCollapseWs (pyStrip
              (pyReplaceAllEmpty (joinLines (linesAt st src.table_index si)) f))]))
          tl.table_index).length := by
        rw [length_cellsOf_writeLinesAt]
        exact hlt_t
      rw [linesAt_modifyLinesAt_self _ _ _ Iff.rfl hlt_t']
      by_cases hss : sameSide src.table_index tl.table_index
      · have hne : si ≠ ti := fun hh => hdist ⟨hss, hh⟩
        rw [linesAt_writeLinesAt_ne_idx _ _ hss hne]
      · rw [linesAt_writeLinesAt_other _ _ _ _ hss]

/-- Witness for C5 (amended) on the spec's example: fragment `"Tools"`
moved from source `["Tools Included"]` to target `["Suite"]` with `append`
yields target `["Suite Tools"]` and source `["Included"]`. -/
theorem c5_witness :
    linesAt (apply_single_correction
        (([⟨0, 0, 1, ["Tools Included"]⟩], [⟨0, 0, 1, ["Suite"]⟩]) : CellsPair)
        ⟨.moveTextFragment, ⟨0, 0, 0⟩, some ⟨1, 0, 0⟩, .append, some "Tools"⟩) 1 0
      = ["Suite Tools"]
    ∧ linesAt (apply_single_correction
        (([⟨0, 0, 1, ["Tools Included"]⟩], [⟨0, 0, 1, ["Suite"]⟩]) : CellsPair)
        ⟨.moveTextFragment, ⟨0, 0, 0⟩, some ⟨1, 0, 0⟩, .append, some "Tools"⟩) 0 0
      = ["Included"] := by
  have h := (c5_theorem (([⟨0, 0, 1, ["Tools Included"]⟩], [⟨0, 0, 1, ["Suite"]⟩]) : CellsPair)
    ⟨0, 0, 0⟩ ⟨1, 0, 0⟩ .append "Tools" 0 0
    (by decide) (by decide) (by decide) (by decide)).2 (by decide)
  exact ⟨h.2.trans (by decide), h.1.trans (by decide)⟩

/-! ### C9 — malformed correction items are dropped individually -/

/-- An oracle-returned correction item before validation: the raw string
`type`/`action` values and possibly missing fields, as handed to
`CorrectionItemSchema(**correction_dict)`. -/
structure RawCorrection where
  rtype : String
  source : Option CellLoc
  target : Option CellLoc
  action : Option String
  text_fragment : Option String
deriving DecidableEq, Inhabited

/-- The `Literal["merge_cells", "move_cell", "remove_cell",
"move_text_fragment"]` validation of the `type` field. -/
def parseCType (s : String) : Option CType :=
  if s = "merge_cells" then some .mergeCells
  else if s = "move_cell" then some .moveCell
  else if s = "remove_cell" then some .removeCell
  else if s = "move_text_fragment" then some .moveTextFragment
  else none

/-- The `Literal["append", "prepend", "replace"] = "append"` validation of
the `action` field (missing field → the default `append`). -/
def parseCAction : Option String → Option CAction
  | none => some .append
  | some s =>
    if s = "append" then some .append
    else if s = "prepend" then some .prepend
    else if s = "replace" then some .replace
    else none

/-- `CorrectionItemSchema(**correction_dict)` inside `process_table_pair`:
pydantic validation succeeds iff `type` and `action` parse and the
required `source` is present; on failure the item is skipped
(`except ... continue`). -/
def parseCorrection (r : RawCorrection) : Option Correction :=
  match parseCType r.rtype, r.source, parseCAction r.action with
  | some t, some src, some a => some ⟨t, src, r.target, a, r.text_fragment⟩
  | _, _, _ => none

/-- The validation loop of `process_table_pair` followed by
`apply_corrections`: parse each raw item, dropping failures, then fold the
surviving corrections over the cell state. -/
def process_batch (st : CellsPair) (raws : List RawCorrection) : CellsPair :=
  apply_corrections st (raws.filterMap parseCorrection)

/-- **C9**: malformed items are dropped individually.
(1) An item whose schema validation fails contributes nothing and does not
prevent the rest of the batch from being applied.
(2) An item whose source coordinates do not resolve leaves the state
unchanged.
(3) An item whose target coordinates do not resolve (for the
target-requiring types) leaves the state unchanged.
(4) `merge_cells`/`move_cell` with a missing target, and
`move_text_fragment` with a missing target or a missing/empty fragment,
leave the state unchanged. -/
theorem c9_theorem :
    (∀ (st : CellsPair) (raws1 raws2 : List RawCorrection) (bad : RawCorrection),
      parseCorrection bad = none →
      process_batch st (raws1 ++ bad :: raws2) = process_batch st (raws1 ++ raws2))
    ∧ (∀ (st : CellsPair) (c : Correction),
      findCellIdx (cellsOf st c.source.table_index) c.source.row c.source.col = none →
      apply_single_correction st c = st)
    ∧ (∀ (st : CellsPair) (src tl : CellLoc) (act : CAction) (fr : Option String) (si : Nat),
      findCellIdx (cellsOf st src.table_index) src.row src.col = some si →
      findCellIdx (cellsOf st tl.table_index) tl.row tl.col = none →
      apply_single_correction st ⟨.mergeCells, src, some tl, act, fr⟩ = st
      ∧ apply_single_correction st ⟨.moveCell, src, some tl, act, fr⟩ = st
      ∧ ∀ f : String, apply_single_correction st ⟨.moveTextFragment, src, some tl, act, some f⟩ = st)
    ∧ (∀ (st : CellsPair) (src : CellLoc) (act : CAction) (fr : Option String) (si : Nat),
      findCellIdx (cellsOf st src.table_index) src.row src.col = some si →
      apply_single_correction st ⟨.mergeCells, src, none, act, fr⟩ = st
      ∧ apply_single_correction st ⟨.moveCell, src, none, act, fr⟩ = st
      ∧ apply_single_correction st ⟨.moveTextFragment, src, none, act, fr⟩ = st
      ∧ ∀ tl : CellLoc,
          apply_single_correction st ⟨.moveTextFragment, src, some tl, act, none⟩ = st
          ∧ apply_single_correction st ⟨.moveTextFragment, src, some tl, act, some ""⟩ = st) := by
  refine ⟨?_, ?_, ?_, ?_⟩
  · intro st raws1 raws2 bad hbad
    unfold process_batch
    rw [List.filterMap_append, List.filterMap_append, List.filterMap_cons, hbad]
  · intro st c h
    cases c with
    | mk t src tgt act fr => simp only [apply_single_correction, h]
  · intro st src tl act fr si hs ht
    refine ⟨?_, ?_, ?_⟩
    · simp only [apply_single_correction, hs, ht]
    · simp only [apply_single_correction, hs, ht]
    · intro f
      by_cases hf : f = ""
      · simp only [apply_single_correction, hs, hf, if_pos]
      · simp only [apply_single_correction, hs, ht, if_neg hf]
  · intro st src act fr si hs
    refine ⟨?_, ?_, ?_, ?_⟩
    · simp only [apply_single_correction, hs]
    · simp only [apply_single_correction, hs]
    · simp only [apply_single_correction, hs]
    · intro tl
      constructor
      · simp only [apply_single_correction, hs]
      · simp only [apply_single_correction, hs, if_pos]

/-- Witness for C9: a raw item with unparseable `type` value
(`"bogus_type"`) is dropped while the following valid `merge_cells` item is
still applied. -/
theorem c9_witness :
    process_batch (([⟨0, 0, 1, ["A"]⟩, ⟨1, 0, 1, ["B"]⟩], []) : CellsPair)
        [⟨"bogus_type", some ⟨0, 0, 0⟩, none, none, none⟩,
         ⟨"merge_cells", some ⟨0, 0, 0⟩, some ⟨0, 1, 0⟩, some "append", none⟩]
      = process_batch (([⟨0, 0, 1, ["A"]⟩, ⟨1, 0, 1, ["B"]⟩], []) : CellsPair)
        [⟨"merge_cells", some ⟨0, 0, 0⟩, some ⟨0, 1, 0⟩, some "append", none⟩] := by
  exact c9_theorem.1 (([⟨0, 0, 1, ["A"]⟩, ⟨1, 0, 1, ["B"]⟩], []) : CellsPair) []
    [⟨"merge_cells", some ⟨0, 0, 0⟩, some ⟨0, 1, 0⟩, some "append", none⟩]
    ⟨"bogus_type", some ⟨0, 0, 0⟩, none, none, none⟩ (by decide)

/-! ### C8 — cross-page table pair finding -/

/-- A table block as seen by `find_cross_page_table_pairs`: its `page_id`
and its contained `TableCell`s. -/
structure TBlock where
  page_id : Int
  cells : List TableCell
deriving DecidableEq, Inhabited

/-- `get_column_count`: maximum over the distinct `row_id`s of the sum of
the `colspan`s in that row (`max_cols or 0` floors the result at 0; the
iteration over Python's `set(...)` is modelled by `dedup`, legitimate
because only the maximum of the per-row sums is taken). -/
def get_column_count (cells : List TableCell) : Nat :=
  if cells.isEmpty then 0
  else
    (((cells.map (fun c => c.row_id)).dedup).map
      (fun r => ((cells.filter (fun c => c.row_id = r)).map (fun c => c.colspan)).sum)).foldl
      max 0

/-- `should_check_table_pair`: both tables must have cells; the column
difference is `abs(c1 - c2)` ONLY `if col_count1 and col_count2` — when
either count is `0` (falsy) the Python expression short-circuits to `0`,
which always passes the threshold. -/
def should_check_table_pair (maxDiff : Nat) (table1 table2 : TBlock) : Bool :=
  if table1.cells.isEmpty || table2.cells.isEmpty then false
  else
    let col_count1 := get_column_count table1.cells
    let col_count2 := get_column_count table2.cells
    let col_diff : Nat :=
      if col_count1 ≠ 0 ∧ col_count2 ≠ 0 then ((col_count1 : Int) - (col_count2 : Int)).natAbs
      else 0
    decide (col_diff ≤ maxDiff)

/-- One step of the scan in `find_cross_page_table_pairs`: `prev_table`
is the table seen immediately before (possibly on the same or an earlier
page); a pair is recorded when the pages are physically consecutive and
the pair is admissible. -/
def pairStep (maxDiff : Nat) (acc : Option TBlock × List (TBlock × TBlock)) (t : TBlock) :
    Option TBlock × List (TBlock × TBlock) :=
  (some t,
    match acc.1 with
    | some p =>
      if p.page_id = t.page_id - 1 ∧ should_check_table_pair maxDiff p t = true then
        acc.2 ++ [(p, t)]
      else acc.2
    | none => acc.2)

/-- `find_cross_page_table_pairs`: pages in order, tables per page in
order, `prev_table` threaded through the whole scan. -/
def find_cross_page_table_pairs (maxDiff : Nat) (pages : List (List TBlock)) :
    List (TBlock × TBlock) :=
  (pages.foldl (fun acc page => page.foldl (pairStep maxDiff) acc)
    ((none : Option TBlock), ([] : List (TBlock × TBlock)))).2

/-- Spec-side description (§4.3 / claim C8): the candidate pairs are the
adjacent pairs of the flattened scan order whose pages are physically
consecutive and which pass the admissibility test. -/
def pairCond (adm : TBlock → TBlock → Bool) (pr : TBlock × TBlock) : Bool :=
  decide (pr.1.page_id = pr.2.page_id - 1) && adm pr.1 pr.2

def c8pairs (adm : TBlock → TBlock → Bool) (pages : List (List TBlock)) :
    List (TBlock × TBlock) :=
  ((pages.flatten).zip (pages.flatten).tail).filter (pairCond adm)

/-- The admissibility predicate the frozen claim states: both tables have
at least one cell and the column counts differ by at most the threshold. -/
def c8ClaimAdmissible (maxDiff : Nat) (t1 t2 : TBlock) : Bool :=
  !t1.cells.isEmpty && (!t2.cells.isEmpty &&
    decide (((get_column_count t1.cells : Int) - (get_column_count t2.cells : Int)).natAbs
      ≤ maxDiff))

/-- C8 as frozen: the returned pairs are exactly the consecutive-scan pairs
on physically consecutive pages, both non-empty, with column counts
differing by at most `max_column_difference`. -/
def c8Claim : Prop :=
  ∀ (maxDiff : Nat) (pages : List (List TBlock)),
    find_cross_page_table_pairs maxDiff pages = c8pairs (c8ClaimAdmissible maxDiff) pages

/-- C8 fails on tables whose estimated column count is `0` (every cell has
`colspan` 0): Python's `col_count1 and col_count2` is then falsy, the
difference short-circuits to `0`, and the pair is admitted even though the
counts differ by 9 > 3. -/
theorem c8_counterexample : ¬ c8Claim := by
  intro h
  have h1 := h 3 [[⟨0, [⟨0, 0, 0, []⟩]⟩], [⟨1, [⟨0, 0, 9, []⟩]⟩]]
  exact absurd h1 (by decide)

theorem pairStep_fold_some (maxDiff : Nat) :
    ∀ (l : List TBlock) (p : TBlock) (acc : List (TBlock × TBlock)),
      (l.foldl (pairStep maxDiff) (some p, acc)).2
        = acc ++ ((p :: l).zip l).filter
            (pairCond (fun a b => should_check_table_pair maxDiff a b)) := by
  intro l
  induction l with
  | nil => intro p acc; simp
  | cons t ts ih =>
    intro p acc
    rw [List.foldl_cons]
    have hstep : pairStep maxDiff (some p, acc) t
        = (some t,
            if p.page_id = t.page_id - 1 ∧ should_check_table_pair maxDiff p t = true then
              acc ++ [(p, t)]
            else acc) := rfl
    rw [hstep]
    by_cases hc : p.page_id = t.page_id - 1 ∧ should_check_table_pair maxDiff p t = true
    · rw [if_pos hc, ih t (acc ++ [(p, t)])]
      have hcond : pairCond (fun a b => should_check_table_pair maxDiff a b) (p, t) = true := by
        simp [pairCond, hc.1, hc.2]
      simp [List.zip_cons_cons, List.filter_cons, hcond]
    · rw [if_neg hc, ih t acc]
      have hcond : pairCond (fun a b => should_check_table_pair maxDiff a b) (p, t) = false := by
        by_contra hcc
        rw [Bool.not_eq_false, pairCond, Bool.and_eq_true, decide_eq_true_eq] at hcc
        exact hc ⟨hcc.1, hcc.2⟩
      simp [List.zip_cons_cons, List.filter_cons, hcond]

/-- **C8 (amended)**: `find_cross_page_table_pairs` returns exactly the
adjacent pairs of the scan order on physically consecutive pages that pass
the code's admissibility test `should_check_table_pair` — i.e. both tables
non-empty and EITHER the column counts differ by at most the threshold OR
at least one estimated column count is `0` (Python truthiness
short-circuit). -/
theorem c8_theorem (maxDiff : Nat) (pages : List (List TBlock)) :
    find_cross_page_table_pairs maxDiff pages
      = c8pairs (fun a b => should_check_table_pair maxDiff a b) pages := by
  unfold find_cross_page_table_pairs c8pairs
  rw [← List.foldl_flatten]
  cases hf : pages.flatten with
  | nil => simp
  | cons t ts =>
    rw [List.foldl_cons]
    have hstep : pairStep maxDiff ((none : Option TBlock), ([] : List (TBlock × TBlock))) t
        = (some t, []) := rfl
    rw [hstep, pairStep_fold_some maxDiff ts t []]
    simp

/-! ## List processor (`list.py`)

`list_group_indentation` iterates the `ListItem` children of one
`ListGroup`.  A child is a polygon plus the mutable `list_indent_level`;
the stack holds live references to children (so a level assigned later is
seen through the stack), modelled as indices into the items list, plus the
seed entry.

The seed `block.get_next_block(page, None)` is code of this repository
outside the two source files.  Modelled from the spec (§4.2): the stack is
"seeded with the block immediately preceding the group's first structural
child (sentinel, may be None)" — an optional extra block carried as
`StkEnt.sent`. -/

structure LI where
  x_start : ℚ
  x_end : ℚ
  y_start : ℚ
  y_end : ℚ
  list_indent_level : Nat
deriving DecidableEq, Inhabited

inductive StkEnt where
  | sent (s : LI)
  | item (i : Nat)
deriving DecidableEq, Inhabited

def entX (items : List LI) : StkEnt → ℚ
  | .sent s => s.x_start
  | .item i => (items.getD i default).x_start

def entY (items : List LI) : StkEnt → ℚ
  | .sent s => s.y_start
  | .item i => (items.getD i default).y_start

def entLvl (items : List LI) : StkEnt → Nat
  | .sent s => s.list_indent_level
  | .item i => (items.getD i default).list_indent_level

def seedStack (seed : Option LI) : List StkEnt :=
  match seed with
  | some s => [.sent s]
  | none => []

/-- State of Pass 1: the (mutated) children, the stack (head = top), the
`indent_xstarts` records (`defaultdict(list)`, in append order) and
`max_indent_level`. -/
structure P1State where
  items : List LI
  stack : List StkEnt
  indent_xstarts : List (Nat × ℚ)
  max_indent_level : Nat
deriving DecidableEq

/-- `while stack and list_item_block.polygon.x_start <=
stack[-1].polygon.x_start + (self.min_x_indent * page.polygon.width):
stack.pop()`. -/
def popWhile1 (items : List LI) (x tol : ℚ) : List StkEnt → List StkEnt
  | [] => []
  | e :: rest => if x ≤ entX items e + tol then popWhile1 items x tol rest else e :: rest

/-- The level assignment of Pass 1 for structural child `i` (`list.py`
lines 76–82): after the x-tolerance pops, when the remaining top is
strictly above the current child, the child inherits the top's level, +1 on
a true rightward indent. -/
def pass1Items (tol : ℚ) (st : P1State) (i : Nat) : List LI :=
  let it := st.items.getD i default
  match popWhile1 st.items it.x_start tol st.stack with
  | [] => st.items
  | e :: _ =>
    if entY st.items e < it.y_start then
      st.items.set i
        { it with
          list_indent_level :=
            entLvl st.items e + (if entX st.items e + tol < it.x_start then 1 else 0) }
    else st.items

/-- The stack update of Pass 1 for structural child `i` (`list.py` lines
88–92): reset to the lookahead child on a column break, else push the
current child onto the popped stack. -/
def pass1Stack (tol : ℚ) (st : P1State) (i : Nat) : List StkEnt :=
  let it := st.items.getD i default
  let stack1 := popWhile1 st.items it.x_start tol st.stack
  let items1 := pass1Items tol st i
  match items1[i + 1]? with
  | some nxt =>
    if (items1.getD i default).x_end < nxt.x_start then [StkEnt.item (i + 1)]
    else StkEnt.item i :: stack1
  | none => StkEnt.item i :: stack1

/-- Pass 1 body for structural child `i` (`list.py` lines 76–92): assign
the level, record `(level, x_start)` in `indent_xstarts`, track the max
level, update the stack. -/
def pass1Step (tol : ℚ) (st : P1State) (i : Nat) : P1State :=
  let items1 := pass1Items tol st i
  let it1 := items1.getD i default
  ⟨items1, pass1Stack tol st i,
    st.indent_xstarts ++ [(it1.list_indent_level, it1.x_start)],
    max st.max_indent_level it1.list_indent_level⟩

/-- Pass 1 over one group whose structural children are all `ListItem`s
(`tol = min_x_indent * page width`). -/
def pass1 (tol : ℚ) (seed : Option LI) (items : List LI) : P1State :=
  (List.range items.length).foldl (pass1Step tol) ⟨items, seedStack seed, [], 0⟩

/-- The `list_indent_level`s resolved by Pass 1, in child order. -/
def pass1Levels (tol : ℚ) (seed : Option LI) (items : List LI) : List Nat :=
  (pass1 tol seed items).items.map (fun it => it.list_indent_level)

/-- State of Pass 2: the children (their polygons are merged into
re-parented ancestors), the stack, the group's remaining `structure`
(child indices), each child's own `structure` (`childs.getD j []` = the
children appended to item `j`), the children appended to the sentinel, and
each child's assigned parent. -/
structure P2State where
  items : List LI
  stack : List StkEnt
  groupStruct : List Nat
  childs : List (List Nat)
  sentChilds : List Nat
  parents : List (Option StkEnt)
deriving DecidableEq

/-- `while stack and list_item_block.list_indent_level <=
stack[-1].list_indent_level: stack.pop()`. -/
def popWhile2 (items : List LI) (lvl : Nat) : List StkEnt → List StkEnt
  | [] => []
  | e :: rest => if lvl ≤ entLvl items e then popWhile2 items lvl rest else e :: rest

/-- `current_parent.polygon = current_parent.polygon.merge([...])`:
bounding-box union. -/
def polyMerge (p q : LI) : LI :=
  { p with
    x_start := min p.x_start q.x_start, x_end := max p.x_end q.x_end,
    y_start := min p.y_start q.y_start, y_end := max p.y_end q.y_end }

/-- Pass 2 body for structural child `i` (`list.py` lines 95–107): pop
while the current level is ≤ the top's level; the remaining top (if any)
becomes the parent: append to its structure, merge polygons, remove `i`
from the group's structure; always push the current child. -/
def pass2Step (st : P2State) (i : Nat) : P2State :=
  let it := st.items.getD i default
  let stack1 := popWhile2 st.items it.list_indent_level st.stack
  let st1 :=
    match stack1 with
    | [] => st
    | e :: _ =>
      let st' :=
        { st with
          parents := st.parents.set i (some e),
          groupStruct := st.groupStruct.erase i }
      match e with
      | .item j =>
        { st' with
          childs := st'.childs.set j (st'.childs.getD j [] ++ [i]),
          items := st'.items.set j (polyMerge (st'.items.getD j default) it) }
      | .sent _ => { st' with sentChilds := st'.sentChilds ++ [i] }
  { st1 with stack := StkEnt.item i :: stack1 }

/-- Initial Pass-2 state: stack re-seeded, group structure = all children
in order, no child has a structure or a parent yet. -/
def pass2Init (seed : Option LI) (items : List LI) : P2State :=
  ⟨items, seedStack seed, List.range items.length,
    List.replicate items.length [], [], List.replicate items.length none⟩

/-- Pass 2 over the snapshot (`block.structure.copy()`) of the group's
children, with the stack re-seeded. -/
def pass2 (seed : Option LI) (items : List LI) : P2State :=
  (List.range items.length).foldl pass2Step (pass2Init seed items)

/-! ## List continuation (`list_group_continuation`, `list.py` 32–57) -/

inductive BlockType where
  | listGroup | listItem | line | pageHeader | pageFooter | table | other
deriving DecidableEq, Inhabited

/-- The fields of a block read by `list_group_continuation`.  `struct?`
stands for the Python `structure` attribute (`None`-able child id list). -/
structure CBlock where
  page_id : Int
  block_type : BlockType
  struct? : Option (List Nat)
  ignore_for_output : Bool
  has_continuation : Bool
  x_start : ℚ
  y_start : ℚ
  y_end : ℚ
deriving DecidableEq, Inhabited

structure PageDims where
  width : ℚ
  height : ℚ
deriving DecidableEq, Inhabited

/-- Python float floor-division by 2 (`next_page.polygon.width // 2`). -/
def fdiv2 (w : ℚ) : ℚ := ((⌊w / 2⌋ : ℤ) : ℚ)

/-- The body of the `list_group_continuation` loop for one `ListGroup`
block: `next?` is the result of
`document.get_next_block(block, self.ignored_block_types)`; `pageOf` is
`document.get_page`.  Returns the new `has_continuation` value (unchanged
when any guard makes the loop `continue`). -/
def list_group_continuation_flag (b : CBlock) (next? : Option CBlock)
    (pageOf : Int → PageDims) : Bool :=
  match next? with
  | none => b.has_continuation
  | some nb =>
    if nb.block_type ≠ BlockType.listGroup then b.has_continuation
    else if nb.struct? = none then b.has_continuation
    else if nb.ignore_for_output then b.has_continuation
    else if nb.page_id = b.page_id then
      decide (nb.y_start ≤ b.y_end)
    else
      decide (nb.x_start < fdiv2 (pageOf nb.page_id).width)
        && decide (nb.y_start < fdiv2 (pageOf nb.page_id).height)

/-! ## Placeholder injection (`list.py` 109–132) -/

/-- The next block's data used by the injection: its page and polygon. -/
structure NBlock where
  page_id : Int
  x_start : ℚ
  x_end : ℚ
  y_start : ℚ
deriving DecidableEq, Inhabited

/-- An injected dummy `ListItem`: the page it is added to, its
`from_bbox([x_start, y_start, x_end, y_end])` polygon and its
`list_indent_level` (reset to 0). -/
structure Dummy where
  page_id : Int
  x_start : ℚ
  y_start : ℚ
  x_end : ℚ
  y_end : ℚ
  list_indent_level : Nat
deriving DecidableEq, Inhabited

/-- `indent_xstarts[level]`: the recorded x-starts of one level, in record
order. -/
def bucket (xst : List (Nat × ℚ)) (lvl : Nat) : List ℚ :=
  (xst.filter (fun p => p.1 = lvl)).map (fun p => p.2)

/-- Python `min(list)` on a non-empty list (the code calls it only on
buckets populated below `max_indent_level`; `ValueError` on an empty list
is a precondition violation per spec §4.2, the `0` default here is never
reached under the theorems' hypotheses). -/
def pymin : List ℚ → ℚ
  | [] => 0
  | x :: xs => xs.foldl min x

/-- Python `list.insert(k, a)` (appends when `k ≥ len`). -/
def insertAt {α : Type _} (l : List α) (k : Nat) (a : α) : List α :=
  l.take k ++ a :: l.drop k

/-- The injection loop (`for level in range(max_indent_level + 1)`).
Structure entries are `Sum.inl` (pre-existing child ids) or `Sum.inr lvl`
(the dummy injected for `lvl`).  Returns the dummies in creation order and
the next block's structure after all insertions. -/
def injectDummies (groupXStart : ℚ) (xst : List (Nat × ℚ)) (maxLvl : Nat) (nb : NBlock)
    (struct0 : List (Nat ⊕ Nat)) : List Dummy × List (Nat ⊕ Nat) :=
  (List.range (maxLvl + 1)).foldl
    (fun acc lvl =>
      let rel_x_start := pymin (bucket xst lvl) - groupXStart - 3
      let d : Dummy :=
        ⟨nb.page_id, nb.x_start + rel_x_start, nb.y_start - 10 * ((lvl : ℚ) + 1),
          nb.x_end, nb.y_start - 5 * ((lvl : ℚ) + 1), 0⟩
      (acc.1 ++ [d], insertAt acc.2 lvl (Sum.inr lvl)))
    ([], struct0)

/-- The injection guard's view of the next block
(`document.get_next_block(block, self.ignored_block_types)`). -/
structure NextInfo where
  isListGroup : Bool
  geom : NBlock
  struct0 : List (Nat ⊕ Nat)
deriving Inhabited

/-- The whole `list_group_indentation` body for one group: Pass 1, Pass 2
on the mutated children, then (when `has_continuation` is set and the next
non-ignored block is a `ListGroup`) the placeholder injection driven by
Pass 1's `indent_xstarts`/`max_indent_level` and the group's
`polygon.x_start`. -/
def list_group_indentation_block (minXIndent pageWidth : ℚ) (seed : Option LI)
    (items : List LI) (groupXStart : ℚ) (hasCont : Bool) (next? : Option NextInfo) :
    P1State × P2State × Option (List Dummy × List (Nat ⊕ Nat)) :=
  let p1 := pass1 (minXIndent * pageWidth) seed items
  let p2 := pass2 seed p1.items
  let inj :=
    if hasCont then
      match next? with
      | some nx =>
        if nx.isListGroup then
          some (injectDummies groupXStart p1.indent_xstarts p1.max_indent_level nx.geom
            nx.struct0)
        else none
      | none => none
    else none
  (p1, p2, inj)

/-! ### C1 — has_continuation -/

/-- The geometric predicate as the CLAIM states it: on a different page the
next block's corner is compared against the TRUE halves `page_width/2`,
`page_height/2`.  (Second definition following the spec's words, to be
compared with the `// 2` floor division the code performs.) -/
def c1ClaimPred (b nb : CBlock) (pageOf : Int → PageDims) : Prop :=
  if nb.page_id = b.page_id then nb.y_start ≤ b.y_end
  else
    nb.x_start < (pageOf nb.page_id).width / 2 ∧ nb.y_start < (pageOf nb.page_id).height / 2

instance (b nb : CBlock) (pageOf : Int → PageDims) : Decidable (c1ClaimPred b nb pageOf) := by
  unfold c1ClaimPred
  infer_instance

/-- The predicate the code computes: floor division
(`next_page.polygon.width // 2`). -/
def c1CodePred (b nb : CBlock) (pageOf : Int → PageDims) : Prop :=
  if nb.page_id = b.page_id then nb.y_start ≤ b.y_end
  else
    nb.x_start < fdiv2 (pageOf nb.page_id).width
      ∧ nb.y_start < fdiv2 (pageOf nb.page_id).height

instance (b nb : CBlock) (pageOf : Int → PageDims) : Decidable (c1CodePred b nb pageOf) := by
  unfold c1CodePred
  infer_instance

/-- C1 as frozen: when the next non-ignored block is a `ListGroup` with
non-null structure and not `ignore_for_output`, `has_continuation` is set
to true iff the same-page / true-half-quadrant predicate holds; otherwise
the flag keeps its previous (default false) value. -/
def c1Claim : Prop :=
  ∀ (b : CBlock) (next? : Option CBlock) (pageOf : Int → PageDims),
    (∀ nb, next? = some nb → nb.block_type = .listGroup → nb.struct? ≠ none →
      nb.ignore_for_output = false →
      (list_group_continuation_flag b next? pageOf = true ↔ c1ClaimPred b nb pageOf))
    ∧ ((next? = none ∨ ∃ nb, next? = some nb ∧
        ¬ (nb.block_type = .listGroup ∧ nb.struct? ≠ none ∧ nb.ignore_for_output = false)) →
      list_group_continuation_flag b next? pageOf = b.has_continuation)

/-- C1 fails on a page of odd width: with page width/height 613 and the
next block's corner at `(306, 0)`, the claim's predicate holds
(`306 < 306.5`) but the code compares against `613 // 2 = 306` and leaves
the flag false. -/
theorem c1_counterexample : ¬ c1Claim := by
  intro h
  have h1 := (h ⟨0, .listGroup, some [], false, false, 0, 0, 500⟩
      (some ⟨1, .listGroup, some [1], false, false, 306, 0, 600⟩) (fun _ => ⟨613, 613⟩)).1
    ⟨1, .listGroup, some [1], false, false, 306, 0, 600⟩ rfl rfl (by decide) rfl
  have h2 := h1.mpr (by decide)
  exact absurd h2 (by decide)

/-- **C1 (amended)**: as the frozen claim, with the cross-page quadrant
bounds `⌊page_width/2⌋`, `⌊page_height/2⌋` (Python `//` floor division on
floats). -/
theorem c1_theorem (b : CBlock) (next? : Option CBlock) (pageOf : Int → PageDims) :
    (∀ nb, next? = some nb → nb.block_type = .listGroup → nb.struct? ≠ none →
      nb.ignore_for_output = false →
      (list_group_continuation_flag b next? pageOf = true ↔ c1CodePred b nb pageOf))
    ∧ ((next? = none ∨ ∃ nb, next? = some nb ∧
        ¬ (nb.block_type = .listGroup ∧ nb.struct? ≠ none ∧ nb.ignore_for_output = false)) →
      list_group_continuation_flag b next? pageOf = b.has_continuation) := by
  constructor
  · intro nb hnb ht hstruct hig
    subst hnb
    simp only [list_group_continuation_flag, c1CodePred]
    rw [if_neg (by simp [ht]), if_neg hstruct, if_neg (by simp [hig])]
    by_cases hp : nb.page_id = b.page_id
    · rw [if_pos hp, if_pos hp]
      simp
    · rw [if_neg hp, if_neg hp]
      simp
  · intro hfail
    rcases hfail with hnone | ⟨nb, hnb, hng⟩
    · rw [hnone]
      rfl
    · subst hnb
      simp only [list_group_continuation_flag]
      by_cases h1 : nb.block_type = BlockType.listGroup
      · rw [if_neg (by simp [h1])]
        by_cases h2 : nb.struct? = none
        · rw [if_pos h2]
        · rw [if_neg h2]
          by_cases h3 : nb.ignore_for_output
          · rw [if_pos h3]
          · exact absurd ⟨h1, h2, by simpa using h3⟩ hng
      · rw [if_pos (by simp [h1])]

/-! ### C4 — placeholder injection -/

/-- The dummy `ListItem` the code creates for indent level `lvl`
(`PolygonBox.from_bbox([...])`, `list.py` lines 120–132). -/
def dummyAt (groupXStart : ℚ) (xst : List (Nat × ℚ)) (nb : NBlock) (lvl : Nat) : Dummy :=
  ⟨nb.page_id, nb.x_start + (pymin (bucket xst lvl) - groupXStart - 3),
    nb.y_start - 10 * ((lvl : ℚ) + 1), nb.x_end, nb.y_start - 5 * ((lvl : ℚ) + 1), 0⟩

/-- The per-level dummy description as the claim words it (corner
coordinates, horizontal alignment to the min recorded x_start for that
level, indent level reset to 0). -/
def c4DummySpec (groupXStart : ℚ) (xst : List (Nat × ℚ)) (nb : NBlock) (L : Nat)
    (d : Dummy) : Prop :=
  d.page_id = nb.page_id
  ∧ d.x_start = nb.x_start + (pymin (bucket xst L) - groupXStart - 3)
  ∧ d.y_start = nb.y_start - 10 * ((L : ℚ) + 1)
  ∧ d.x_end = nb.x_end
  ∧ d.y_end = nb.y_start - 5 * ((L : ℚ) + 1)
  ∧ d.list_indent_level = 0

instance (gx : ℚ) (xst : List (Nat × ℚ)) (nb : NBlock) (L : Nat) (d : Dummy) :
    Decidable (c4DummySpec gx xst nb L d) := by
  unfold c4DummySpec
  infer_instance

theorem foldl_min_spec (xs : List ℚ) :
    ∀ a : ℚ, xs.foldl min a ∈ a :: xs ∧ ∀ x ∈ a :: xs, xs.foldl min a ≤ x := by
  induction xs with
  | nil =>
    intro a
    exact ⟨List.mem_singleton.mpr rfl, fun x hx => le_of_eq (List.mem_singleton.mp hx).symm⟩
  | cons b xs ih =>
    intro a
    rw [List.foldl_cons]
    obtain ⟨hmem, hle⟩ := ih (min a b)
    constructor
    · rcases List.mem_cons.mp hmem with hm | hm
      · rcases min_choice a b with hc | hc
        · exact List.mem_cons.mpr (Or.inl (hm.trans hc))
        · exact List.mem_cons.mpr (Or.inr (List.mem_cons.mpr (Or.inl (hm.trans hc))))
      · exact List.mem_cons.mpr (Or.inr (List.mem_cons.mpr (Or.inr hm)))
    · intro x hx
      rcases List.mem_cons.mp hx with hx1 | hx2
      · exact le_trans (le_trans (hle _ (List.mem_cons_self _ _)) (min_le_left a b)) hx1.ge
      · rcases List.mem_cons.mp hx2 with hx3 | hx4
        · exact le_trans (le_trans (hle _ (List.mem_cons_self _ _)) (min_le_right a b)) hx3.ge
        · exact hle x (List.mem_cons.mpr (Or.inr hx4))

/-- `pymin` really is the minimum of a non-empty bucket. -/
theorem pymin_spec (l : List ℚ) (h : l ≠ []) : pymin l ∈ l ∧ ∀ x ∈ l, pymin l ≤ x := by
  cases l with
  | nil => exact absurd rfl h
  | cons a xs => exact (foldl_min_spec xs a)

/-- Python `insert` at the boundary between a prefix and a suffix. -/
theorem insertAt_at_prefix_length {α : Type _} (P s : List α) (a : α) :
    insertAt (P ++ s) P.length a = P ++ a :: s := by
  unfold insertAt
  rw [List.take_left, List.drop_left]

/-- Closed form of the injection loop: one dummy per level `0..maxLvl` in
order, and the next block's structure after the successive
`structure.insert(level, ...)` calls is exactly the dummies (shallow to
deep) in front of the original entries. -/
theorem injectDummies_spec (gx : ℚ) (xst : List (Nat × ℚ)) (nb : NBlock) :
    ∀ (m : Nat) (struct0 : List (Nat ⊕ Nat)),
      injectDummies gx xst m nb struct0
        = ((List.range (m + 1)).map (dummyAt gx xst nb),
            (List.range (m + 1)).map Sum.inr ++ struct0) := by
  intro m
  induction m with
  | zero => intro struct0; rfl
  | succ m ih =>
    intro struct0
    unfold injectDummies
    rw [show m + 1 + 1 = (m + 1) + 1 from rfl, List.range_succ, List.foldl_append]
    have hprev : (List.range (m + 1)).foldl
        (fun acc lvl =>
          (acc.1 ++ [⟨nb.page_id, nb.x_start + (pymin (bucket xst lvl) - gx - 3),
              nb.y_start - 10 * ((lvl : ℚ) + 1), nb.x_end,
              nb.y_start - 5 * ((lvl : ℚ) + 1), 0⟩],
            insertAt acc.2 lvl (Sum.inr lvl)))
        ([], struct0)
        = ((List.range (m + 1)).map (dummyAt gx xst nb),
            (List.range (m + 1)).map Sum.inr ++ struct0) := ih struct0
    rw [hprev]
    simp only [List.foldl_cons, List.foldl_nil]
    rw [Prod.mk.injEq]
    refine ⟨?_, ?_⟩
    · rw [List.map_append]
      rfl
    · have hlen : ((List.range (m + 1)).map (Sum.inr : Nat → Nat ⊕ Nat)).length = m + 1 := by
        simp
      have hins := insertAt_at_prefix_length ((List.range (m + 1)).map
        (Sum.inr : Nat → Nat ⊕ Nat)) struct0 (Sum.inr (m + 1))
      rw [hlen] at hins
      rw [hins, List.map_append, List.append_assoc]
      rfl

/-- C4 as frozen, including the parenthetical "(a band 5px tall)": each
injected dummy's vertical extent would be 5 pixels at every level. -/
def c4Claim : Prop :=
  ∀ (minXIndent pageWidth : ℚ) (seed : Option LI) (items : List LI) (gx : ℚ) (nx : NextInfo),
    nx.isListGroup = true →
    (∀ L, L ≤ (pass1 (minXIndent * pageWidth) seed items).max_indent_level →
      bucket (pass1 (minXIndent * pageWidth) seed items).indent_xstarts L ≠ []) →
    ∃ ds st',
      (list_group_indentation_block minXIndent pageWidth seed items gx true (some nx)).2.2
        = some (ds, st')
      ∧ ds.length = (pass1 (minXIndent * pageWidth) seed items).max_indent_level + 1
      ∧ st' = (List.range
            ((pass1 (minXIndent * pageWidth) seed items).max_indent_level + 1)).map Sum.inr
          ++ nx.struct0
      ∧ ∀ L, L ≤ (pass1 (minXIndent * pageWidth) seed items).max_indent_level →
          c4DummySpec gx (pass1 (minXIndent * pageWidth) seed items).indent_xstarts nx.geom L
            (ds.getD L default)
          ∧ (ds.getD L default).y_end - (ds.getD L default).y_start = 5

/-- C4's "band 5px tall" gloss fails at indent level 1: the band runs from
`y_start - 20` to `y_start - 10`, which is 10 pixels tall (the formulas in
the same claim already say so). -/
theorem c4_counterexample : ¬ c4Claim := by
  intro h
  obtain ⟨ds, st', hinj, hlen, hst, hL⟩ :=
    h (1/100) 100 none [⟨0, 1000, 0, 0, 0⟩, ⟨10, 1000, 10, 10, 0⟩] 0
      ⟨true, ⟨1, 50, 100, 200⟩, []⟩ rfl (by decide)
  have hval : (list_group_indentation_block (1/100) 100 none
      [⟨0, 1000, 0, 0, 0⟩, ⟨10, 1000, 10, 10, 0⟩] 0 true
      (some ⟨true, ⟨1, 50, 100, 200⟩, []⟩)).2.2
      = some ([⟨1, 47, 190, 100, 195, 0⟩, ⟨1, 57, 180, 100, 190, 0⟩],
          [Sum.inr 0, Sum.inr 1]) := by decide
  rw [hval] at hinj
  obtain ⟨hds, _⟩ : [(⟨1, 47, 190, 100, 195, 0⟩ : Dummy), ⟨1, 57, 180, 100, 190, 0⟩] = ds
      ∧ [Sum.inr 0, Sum.inr 1] = st' := by
    simpa using hinj
  have h5 := (hL 1 (by decide)).2
  rw [← hds] at h5
  exact absurd h5 (by decide)

/-- **C4 (amended)**: as the frozen claim, except the band at level `L` is
`5·(L+1)` pixels tall (from `y_start - 10·(L+1)` down to
`y_start - 5·(L+1)`), exactly as the claim's own coordinate formulas say;
additionally `pymin` of each level's bucket is its true minimum. -/
theorem c4_theorem (minXIndent pageWidth : ℚ) (seed : Option LI) (items : List LI)
    (gx : ℚ) (nx : NextInfo) (hlg : nx.isListGroup = true)
    (hb : ∀ L, L ≤ (pass1 (minXIndent * pageWidth) seed items).max_indent_level →
      bucket (pass1 (minXIndent * pageWidth) seed items).indent_xstarts L ≠ []) :
    (list_group_indentation_block minXIndent pageWidth seed items gx true (some nx)).2.2
      = some (
        (List.range ((pass1 (minXIndent * pageWidth) seed items).max_indent_level + 1)).map
          (dummyAt gx (pass1 (minXIndent * pageWidth) seed items).indent_xstarts nx.geom),
        (List.range
          ((pass1 (minXIndent * pageWidth) seed items).max_indent_level + 1)).map Sum.inr
          ++ nx.struct0)
    ∧ (∀ L, L ≤ (pass1 (minXIndent * pageWidth) seed items).max_indent_level →
        c4DummySpec gx (pass1 (minXIndent * pageWidth) seed items).indent_xstarts nx.geom L
          (dummyAt gx (pass1 (minXIndent * pageWidth) seed items).indent_xstarts nx.geom L)
        ∧ (dummyAt gx (pass1 (minXIndent * pageWidth) seed items).indent_xstarts nx.geom
              L).y_end
            - (dummyAt gx (pass1 (minXIndent * pageWidth) seed items).indent_xstarts nx.geom
              L).y_start
          = 5 * ((L : ℚ) + 1))
    ∧ (∀ L, L ≤ (pass1 (minXIndent * pageWidth) seed items).max_indent_level →
        pymin (bucket (pass1 (minXIndent * pageWidth) seed items).indent_xstarts L)
            ∈ bucket (pass1 (minXIndent * pageWidth) seed items).indent_xstarts L
          ∧ ∀ x ∈ bucket (pass1 (minXIndent * pageWidth) seed items).indent_xstarts L,
            pymin (bucket (pass1 (minXIndent * pageWidth) seed items).indent_xstarts L) ≤ x) := by
  refine ⟨?_, ?_, ?_⟩
  · have hred : (list_group_indentation_block minXIndent pageWidth seed items gx true
        (some nx)).2.2
        = some (injectDummies gx (pass1 (minXIndent * pageWidth) seed items).indent_xstarts
            (pass1 (minXIndent * pageWidth) seed items).max_indent_level nx.geom nx.struct0) := by
      simp [list_group_indentation_block, hlg]
    rw [hred, injectDummies_spec]
  · intro L _
    refine ⟨⟨rfl, rfl, rfl, rfl, rfl, rfl⟩, ?_⟩
    show (nx.geom.y_start - 5 * ((L : ℚ) + 1)) - (nx.geom.y_start - 10 * ((L : ℚ) + 1))
        = 5 * ((L : ℚ) + 1)
    ring
  · intro L hLle
    exact pymin_spec _ (hb L hLle)

/-- Witness for C4 (amended) at a concrete continuation group with max
indent level 1: the two dummies and the structure after insertion. -/
theorem c4_witness :
    (list_group_indentation_block (1/100) 100 none
        [⟨0, 1000, 0, 0, 0⟩, ⟨10, 1000, 10, 10, 0⟩] 0 true
        (some ⟨true, ⟨1, 50, 100, 200⟩, [Sum.inl 7]⟩)).2.2
      = some ([⟨1, 47, 190, 100, 195, 0⟩, ⟨1, 57, 180, 100, 190, 0⟩],
          [Sum.inr 0, Sum.inr 1, Sum.inl 7]) := by
  have h := (c4_theorem (1/100) 100 none [⟨0, 1000, 0, 0, 0⟩, ⟨10, 1000, 10, 10, 0⟩] 0
    ⟨true, ⟨1, 50, 100, 200⟩, [Sum.inl 7]⟩ rfl (by decide)).1
  exact h.trans (by decide)

/-- Witness for C1 (amended), the spec's literal numbers: block ends at
`y_end = 500`, next block on the same page starts at `y_start = 480`
(480 ≤ 500), so the flag is set to true. -/
theorem c1_witness :
    list_group_continuation_flag ⟨0, .listGroup, some [], false, false, 0, 0, 500⟩
      (some ⟨0, .listGroup, some [1], false, false, 10, 480, 600⟩)
      (fun _ => ⟨613, 613⟩) = true := by
  exact ((c1_theorem ⟨0, .listGroup, some [], false, false, 0, 0, 500⟩
      (some ⟨0, .listGroup, some [1], false, false, 10, 480, 600⟩) (fun _ => ⟨613, 613⟩)).1
    ⟨0, .listGroup, some [1], false, false, 10, 480, 600⟩ rfl rfl (by decide) rfl).mpr
    (by decide)

/-! ### C3 — Pass 2 produces a forest -/

theorem getD_set_eq {α : Type _} (l : List α) (k : Nat) (v d : α) (h : k < l.length) :
    (l.set k v).getD k d = v := by
  simp [List.getD_eq_getElem?_getD, List.getElem?_set, h]

theorem getD_set_ne {α : Type _} (l : List α) {k j : Nat} (v d : α) (h : k ≠ j) :
    (l.set k v).getD j d = l.getD j d := by
  simp [List.getD_eq_getElem?_getD, List.getElem?_set, h]

theorem mem_popWhile2 (items : List LI) (lvl : Nat) :
    ∀ {s : List StkEnt} {e : StkEnt}, e ∈ popWhile2 items lvl s → e ∈ s := by
  intro s
  induction s with
  | nil => intro e h; simp [popWhile2] at h
  | cons a rest ih =>
    intro e h
    have heq : popWhile2 items lvl (a :: rest)
        = if lvl ≤ entLvl items a then popWhile2 items lvl rest else a :: rest := rfl
    rw [heq] at h
    by_cases hc : lvl ≤ entLvl items a
    · rw [if_pos hc] at h
      exact List.mem_cons_of_mem _ (ih h)
    · rwa [if_neg hc] at h

theorem sum_set_nat : ∀ (l : List Nat) (k : Nat) (x : Nat), k < l.length →
    (l.set k x).sum + l.getD k 0 = l.sum + x := by
  intro l
  induction l with
  | nil => intro k x h; simp at h
  | cons a as ih =>
    intro k x h
    cases k with
    | zero => simp [List.set]; omega
    | succ k =>
      have hk : k < as.length := by simpa using h
      have := ih k x hk
      simp only [List.set, List.sum_cons, List.getD_cons_succ]
      omega

theorem getD_replicate {α : Type _} (n j : Nat) (a : α) :
    (List.replicate n a).getD j a = a := by
  rw [List.getD_eq_getElem?_getD, List.getElem?_replicate]
  split <;> rfl

/-- Effect on the per-child ownership counts of appending `k` to the
structure of child `j₀`. -/
theorem childs_sum_set (childs : List (List Nat)) (j₀ : Nat) (h : j₀ < childs.length)
    (k j : Nat) :
    ((childs.set j₀ (childs.getD j₀ [] ++ [k])).map (fun l => l.count j)).sum
      = (childs.map (fun l => l.count j)).sum + (if k = j then 1 else 0) := by
  rw [List.map_set]
  have hlen : j₀ < (childs.map (fun l => l.count j)).length := by simpa using h
  have hs := sum_set_nat (childs.map (fun l => l.count j)) j₀
    ((childs.getD j₀ [] ++ [k]).count j) hlen
  have hg : (childs.map (fun l => l.count j)).getD j₀ 0 = (childs.getD j₀ []).count j := by
    rw [List.getD_eq_getElem?_getD, List.getElem?_map, List.getElem?_eq_getElem h,
      Option.map_some', Option.getD_some, List.getD_eq_getElem?_getD,
      List.getElem?_eq_getElem h, Option.getD_some]
  have hone : List.count j (childs.getD j₀ [] ++ [k])
      = (childs.getD j₀ []).count j + (if k = j then 1 else 0) := by
    rw [List.count_append, List.count_singleton]
    by_cases hkj : k = j <;> simp [hkj]
  rw [hone] at hs ⊢
  rw [hg] at hs
  omega

/-- The ownership bookkeeping of the invariant: a child without a parent is
exactly once in the group's structure and nowhere else; a child with a
parent is in exactly one structure among the item/sentinel structures. -/
def c3Counts (n : Nat) (st : P2State) : Prop :=
  ∀ j, j < n →
    (st.parents.getD j none = none →
      st.groupStruct.count j = 1 ∧ (st.childs.map (fun l => l.count j)).sum = 0
        ∧ st.sentChilds.count j = 0)
    ∧ (st.parents.getD j none ≠ none →
      st.groupStruct.count j = 0
        ∧ (st.childs.map (fun l => l.count j)).sum + st.sentChilds.count j = 1)

/-- Invariant after processing the first `k` children in Pass 2. -/
def c3Inv (n k : Nat) (st : P2State) : Prop :=
  st.parents.length = n ∧ st.childs.length = n
  ∧ (∀ j, k ≤ j → st.parents.getD j none = none)
  ∧ (∀ i j, st.parents.getD i none = some (.item j) → j < i ∧ i < k)
  ∧ (∀ j, StkEnt.item j ∈ st.stack → j < k)
  ∧ c3Counts n st

theorem c3Inv_init (seed : Option LI) (items : List LI) :
    c3Inv items.length 0 (pass2Init seed items) := by
  refine ⟨by simp [pass2Init], by simp [pass2Init], ?_, ?_, ?_, ?_⟩
  · intro j _
    exact getD_replicate _ _ _
  · intro i j h
    rw [show (pass2Init seed items).parents = List.replicate items.length none from rfl,
      getD_replicate] at h
    exact Option.noConfusion h
  · intro j hj
    exfalso
    cases hseed : seed with
    | none => rw [hseed] at hj; simp [pass2Init, seedStack] at hj
    | some s => rw [hseed] at hj; simp [pass2Init, seedStack] at hj
  · intro j hj
    constructor
    · intro _
      refine ⟨List.count_eq_one_of_mem (List.nodup_range _) (List.mem_range.mpr hj), ?_, ?_⟩
      · show ((List.replicate items.length ([] : List Nat)).map (fun l => l.count j)).sum = 0
        rw [List.map_replicate]
        simp
      · simp [pass2Init]
    · intro hne
      exact absurd (getD_replicate items.length j none) hne

theorem c3Inv_step (n k : Nat) (st : P2State) (hk : k < n) (hinv : c3Inv n k st) :
    c3Inv n (k + 1) (pass2Step st k) := by
  obtain ⟨hplen, hclen, hnone, hsome, hstack, hcounts⟩ := hinv
  have hkp : st.parents.getD k none = none := hnone k le_rfl
  have hkc := (hcounts k hk).1 hkp
  cases hstk : popWhile2 st.items (st.items.getD k default).list_indent_level st.stack with
  | nil =>
    have heq : pass2Step st k
        = ⟨st.items, [StkEnt.item k], st.groupStruct, st.childs, st.sentChilds,
            st.parents⟩ := by
      simp only [pass2Step, hstk]
    rw [heq]
    refine ⟨hplen, hclen, ?_, ?_, ?_, ?_⟩
    · intro j hj
      exact hnone j (le_trans (Nat.le_succ k) hj)
    · intro i j h
      obtain ⟨h1, h2⟩ := hsome i j h
      exact ⟨h1, Nat.lt_succ_of_lt h2⟩
    · intro j hj
      simp only [List.mem_singleton] at hj
      cases hj
      exact Nat.lt_succ_self k
    · intro j hj
      exact hcounts j hj
  | cons e rest =>
    have hmem_e : e ∈ st.stack :=
      mem_popWhile2 st.items _ (hstk ▸ List.mem_cons_self e rest)
    have hmem_rest : ∀ x ∈ rest, x ∈ st.stack := fun x hx =>
      mem_popWhile2 st.items _ (hstk ▸ List.mem_cons_of_mem e hx)
    cases e with
    | item j₀ =>
      have hj₀k : j₀ < k := hstack j₀ hmem_e
      have hj₀n : j₀ < n := lt_trans hj₀k hk
      have heq : pass2Step st k
          = ⟨st.items.set j₀ (polyMerge (st.items.getD j₀ default) (st.items.getD k default)),
              StkEnt.item k :: StkEnt.item j₀ :: rest,
              st.groupStruct.erase k,
              st.childs.set j₀ (st.childs.getD j₀ [] ++ [k]),
              st.sentChilds,
              st.parents.set k (some (StkEnt.item j₀))⟩ := by
        simp only [pass2Step, hstk]
      rw [heq]
      unfold c3Inv c3Counts
      dsimp only
      refine ⟨by simp [hplen], by simp [hclen], ?_, ?_, ?_, ?_⟩
      · intro j hj
        have hkj : k ≠ j := by omega
        rw [getD_set_ne _ _ _ hkj]
        exact hnone j (by omega)
      · intro i j h
        by_cases hik : i = k
        · subst hik
          rw [getD_set_eq _ _ _ _ (by omega)] at h
          cases h
          exact ⟨hj₀k, Nat.lt_succ_self i⟩
        · rw [getD_set_ne _ _ _ (fun hh => hik hh.symm)] at h
          obtain ⟨h1, h2⟩ := hsome i j h
          exact ⟨h1, Nat.lt_succ_of_lt h2⟩
      · intro j hj
        rcases List.mem_cons.mp hj with hj1 | hj2
        · cases hj1
          exact Nat.lt_succ_self k
        · rcases List.mem_cons.mp hj2 with hj3 | hj4
          · cases hj3
            exact Nat.lt_succ_of_lt hj₀k
          · exact Nat.lt_succ_of_lt (hstack j (hmem_rest _ hj4))
      · intro j hj
        by_cases hjk : j = k
        · subst hjk
          constructor
          · intro hcontra
            rw [getD_set_eq _ _ _ _ (by omega)] at hcontra
            exact Option.noConfusion hcontra
          · intro _
            refine ⟨?_, ?_⟩
            · rw [List.count_erase_self]
              omega
            · rw [childs_sum_set st.childs j₀ (by omega) j j, if_pos rfl]
              omega
        · have hpres : (st.parents.set k (some (StkEnt.item j₀))).getD j none
              = st.parents.getD j none :=
            getD_set_ne _ _ _ (fun hh => hjk hh.symm)
          rw [hpres]
          have hkj : k ≠ j := fun hh => hjk hh.symm
          constructor
          · intro hpj
            obtain ⟨h1, h2, h3⟩ := (hcounts j hj).1 hpj
            refine ⟨?_, ?_, h3⟩
            · rw [List.count_erase_of_ne (fun hh => hjk hh) _]
              exact h1
            · rw [childs_sum_set st.childs j₀ (by omega) k j]
              simp only [if_neg hkj]
              omega
          · intro hpj
            obtain ⟨h1, h2⟩ := (hcounts j hj).2 hpj
            refine ⟨?_, ?_⟩
            · rw [List.count_erase_of_ne (fun hh => hjk hh) _]
              exact h1
            · rw [childs_sum_set st.childs j₀ (by omega) k j]
              simp only [if_neg hkj]
              omega
    | sent s =>
      have heq : pass2Step st k
          = ⟨st.items,
              StkEnt.item k :: StkEnt.sent s :: rest,
              st.groupStruct.erase k,
              st.childs,
              st.sentChilds ++ [k],
              st.parents.set k (some (StkEnt.sent s))⟩ := by
        simp only [pass2Step, hstk]
      rw [heq]
      unfold c3Inv c3Counts
      dsimp only
      refine ⟨by simp [hplen], hclen, ?_, ?_, ?_, ?_⟩
      · intro j hj
        have hkj : k ≠ j := by omega
        rw [getD_set_ne _ _ _ hkj]
        exact hnone j (by omega)
      · intro i j h
        by_cases hik : i = k
        · subst hik
          rw [getD_set_eq _ _ _ _ (by omega)] at h
          exact absurd h (by simp)
        · rw [getD_set_ne _ _ _ (fun hh => hik hh.symm)] at h
          obtain ⟨h1, h2⟩ := hsome i j h
          exact ⟨h1, Nat.lt_succ_of_lt h2⟩
      · intro j hj
        rcases List.mem_cons.mp hj with hj1 | hj2
        · cases hj1
          exact Nat.lt_succ_self k
        · rcases List.mem_cons.mp hj2 with hj3 | hj4
          · exact absurd hj3 (by simp)
          · exact Nat.lt_succ_of_lt (hstack j (hmem_rest _ hj4))
      · intro j hj
        by_cases hjk : j = k
        · subst hjk
          constructor
          · intro hcontra
            rw [getD_set_eq _ _ _ _ (by omega)] at hcontra
            exact Option.noConfusion hcontra
          · intro _
            refine ⟨?_, ?_⟩
            · rw [List.count_erase_self]
              omega
            · rw [List.count_append]
              have : List.count j [j] = 1 := by simp
              omega
        · have hpres : (st.parents.set k (some (StkEnt.sent s))).getD j none
              = st.parents.getD j none :=
            getD_set_ne _ _ _ (fun hh => hjk hh.symm)
          rw [hpres]
          have hcnt : List.count j (st.sentChilds ++ [k]) = List.count j st.sentChilds := by
            rw [List.count_append]
            have : List.count j [k] = 0 := by
              simp [List.count_singleton]
              exact fun hh => hjk hh.symm
            omega
          constructor
          · intro hpj
            obtain ⟨h1, h2, h3⟩ := (hcounts j hj).1 hpj
            refine ⟨?_, h2, ?_⟩
            · rw [List.count_erase_of_ne (fun hh => hjk hh) _]
              exact h1
            · rw [hcnt]
              exact h3
          · intro hpj
            obtain ⟨h1, h2⟩ := (hcounts j hj).2 hpj
            refine ⟨?_, ?_⟩
            · rw [List.count_erase_of_ne (fun hh => hjk hh) _]
              exact h1
            · rw [hcnt]
              exact h2

theorem c3Inv_fold (seed : Option LI) (items : List LI) :
    ∀ k, k ≤ items.length →
      c3Inv items.length k ((List.range k).foldl pass2Step (pass2Init seed items)) := by
  intro k
  induction k with
  | zero => intro _; exact c3Inv_init seed items
  | succ k ih =>
    intro hk1
    rw [List.range_succ, List.foldl_append, List.foldl_cons, List.foldl_nil]
    exact c3Inv_step items.length k _ (Nat.lt_of_succ_le hk1) (ih (Nat.le_of_succ_le hk1))

/-- **C3**: after Pass 2 the ownership relation on the group's `ListItem`s
is a forest: (1) every assigned parent is an earlier item, so parent links
strictly descend and terminate (no cycles) at a top-level entry; (2) every
child of the original structure occurs exactly once in the resulting
forest — counting the group's remaining structure, all items' structures
and the sentinel's structure together; (3) a child is still in the group's
structure exactly when it received no parent. -/
theorem c3_theorem (seed : Option LI) (items : List LI) :
    (∀ i j, (pass2 seed items).parents.getD i none = some (.item j) → j < i)
    ∧ (∀ j, j < items.length →
        (pass2 seed items).groupStruct.count j
          + (((pass2 seed items).childs.map (fun l => l.count j)).sum
            + (pass2 seed items).sentChilds.count j) = 1)
    ∧ (∀ j, j < items.length →
        ((pass2 seed items).parents.getD j none = none
          ↔ j ∈ (pass2 seed items).groupStruct)) := by
  have hinv : c3Inv items.length items.length (pass2 seed items) :=
    c3Inv_fold seed items items.length le_rfl
  obtain ⟨_, _, _, hsome, _, hcounts⟩ := hinv
  refine ⟨?_, ?_, ?_⟩
  · intro i j h
    exact (hsome i j h).1
  · intro j hj
    by_cases hp : (pass2 seed items).parents.getD j none = none
    · obtain ⟨h1, h2, h3⟩ := (hcounts j hj).1 hp
      omega
    · obtain ⟨h1, h2⟩ := (hcounts j hj).2 hp
      omega
  · intro j hj
    by_cases hp : (pass2 seed items).parents.getD j none = none
    · refine ⟨fun _ => ?_, fun _ => hp⟩
      have h1 := ((hcounts j hj).1 hp).1
      exact List.count_pos_iff.mp (by omega)
    · refine ⟨fun h => absurd h hp, fun hmem => ?_⟩
      have h1 := ((hcounts j hj).2 hp).1
      exact absurd (List.count_pos_iff.mpr hmem) (by omega)

/-- Witness for C3: two children with levels 0 and 1 — the second is
re-parented under the first and leaves the group's structure. -/
theorem c3_witness :
    1 ∉ (pass2 none [⟨0, 1000, 0, 0, 0⟩, ⟨10, 1000, 10, 10, 1⟩]).groupStruct := by
  intro hmem
  have h := ((c3_theorem none [⟨0, 1000, 0, 0, 0⟩, ⟨10, 1000, 10, 10, 1⟩]).2.2 1
    (by decide)).mpr hmem
  exact absurd h (by decide)

/-! ### C2 — Pass 1 level monotonicity -/

/-- Pass 1 either leaves the children untouched or rewrites exactly the
`list_indent_level` of child `i`. -/
theorem pass1Items_shape (tol : ℚ) (st : P1State) (i : Nat) :
    pass1Items tol st i = st.items
    ∨ ∃ lvl, pass1Items tol st i
        = st.items.set i { st.items.getD i default with list_indent_level := lvl } := by
  cases hpop : popWhile1 st.items (st.items.getD i default).x_start tol st.stack with
  | nil =>
    left
    simp only [pass1Items, hpop]
  | cons e es =>
    by_cases hyc : entY st.items e < (st.items.getD i default).y_start
    · right
      refine ⟨entLvl st.items e
        + (if entX st.items e + tol < (st.items.getD i default).x_start then 1 else 0), ?_⟩
      simp only [pass1Items, hpop, if_pos hyc]
    · left
      simp only [pass1Items, hpop, if_neg hyc]

theorem pass1Items_length (tol : ℚ) (st : P1State) (i : Nat) :
    (pass1Items tol st i).length = st.items.length := by
  rcases pass1Items_shape tol st i with h | ⟨lvl, h⟩ <;> simp [h]

theorem pass1Items_getD_ne (tol : ℚ) (st : P1State) (i j : Nat) (hij : i ≠ j) :
    (pass1Items tol st i).getD j default = st.items.getD j default := by
  rcases pass1Items_shape tol st i with h | ⟨lvl, h⟩
  · rw [h]
  · rw [h, getD_set_ne _ _ _ hij]

theorem pass1Items_geom (tol : ℚ) (st : P1State) (i j : Nat) :
    ((pass1Items tol st i).getD j default).x_start = (st.items.getD j default).x_start
    ∧ ((pass1Items tol st i).getD j default).x_end = (st.items.getD j default).x_end
    ∧ ((pass1Items tol st i).getD j default).y_start = (st.items.getD j default).y_start := by
  rcases pass1Items_shape tol st i with h | ⟨lvl, h⟩
  · rw [h]
    exact ⟨rfl, rfl, rfl⟩
  · rw [h]
    by_cases hij : i = j
    · subst hij
      by_cases hlen : i < st.items.length
      · rw [getD_set_eq _ _ _ _ hlen]
        exact ⟨rfl, rfl, rfl⟩
      · rw [List.set_eq_of_length_le (le_of_not_lt hlen)]
        exact ⟨rfl, rfl, rfl⟩
    · rw [getD_set_ne _ _ _ hij]
      exact ⟨rfl, rfl, rfl⟩

/-- When the lookahead child does not start past the current child's right
edge (no column break), the stack update is a push. -/
theorem pass1Stack_push (tol : ℚ) (st : P1State) (i : Nat)
    (hno : ∀ nxt, (pass1Items tol st i)[i + 1]? = some nxt →
      ¬ ((pass1Items tol st i).getD i default).x_end < nxt.x_start) :
    pass1Stack tol st i
      = StkEnt.item i :: popWhile1 st.items ((st.items.getD i default).x_start) tol st.stack := by
  cases hn : (pass1Items tol st i)[i + 1]? with
  | none => simp only [pass1Stack, hn]
  | some nxt => simp only [pass1Stack, hn, if_neg (hno nxt hn)]

/-- Invariant of Pass 1 on a run whose children step strictly right past
the tolerance, strictly down, with no column breaks: after `k` steps the
processed prefix carries levels that increase by exactly 1, the suffix and
all geometry are untouched, and the stack top is the last processed
child. -/
def c2Inv (items : List LI) (k : Nat) (st : P1State) : Prop :=
  st.items.length = items.length
  ∧ (∀ j, (st.items.getD j default).x_start = (items.getD j default).x_start
      ∧ (st.items.getD j default).x_end = (items.getD j default).x_end
      ∧ (st.items.getD j default).y_start = (items.getD j default).y_start)
  ∧ (∀ j, k ≤ j → st.items.getD j default = items.getD j default)
  ∧ (∀ k', k = k' + 1 → ∃ rest, st.stack = StkEnt.item k' :: rest)
  ∧ (∀ j, j + 1 < k →
      (st.items.getD (j + 1) default).list_indent_level
        = (st.items.getD j default).list_indent_level + 1)

theorem c2Inv_step (tol : ℚ) (items : List LI)
    (hstep : ∀ i, i + 1 < items.length →
      (items.getD i default).x_start + tol < (items.getD (i + 1) default).x_start)
    (hy : ∀ i, i + 1 < items.length →
      (items.getD i default).y_start < (items.getD (i + 1) default).y_start)
    (hnores : ∀ i, i + 1 < items.length →
      (items.getD (i + 1) default).x_start ≤ (items.getD i default).x_end)
    (k : Nat) (hk : k < items.length) (st : P1State) (hinv : c2Inv items k st) :
    c2Inv items (k + 1) (pass1Step tol st k) := by
  obtain ⟨hlen, hgeom, hsuf, hstk, hlv⟩ := hinv
  have hno : ∀ nxt, (pass1Items tol st k)[k + 1]? = some nxt →
      ¬ ((pass1Items tol st k).getD k default).x_end < nxt.x_start := by
    intro nxt hn
    have hbound : k + 1 < (pass1Items tol st k).length := by
      by_contra hb
      push_neg at hb
      rw [List.getElem?_eq_none hb] at hn
      exact Option.noConfusion hn
    have hbound' : k + 1 < items.length := by
      rw [pass1Items_length, hlen] at hbound
      exact hbound
    have hnxt_eq : nxt = items.getD (k + 1) default := by
      have h1 : (pass1Items tol st k).getD (k + 1) default = st.items.getD (k + 1) default :=
        pass1Items_getD_ne tol st k (k + 1) (by omega)
      have h2 : (pass1Items tol st k).getD (k + 1) default = nxt := by
        rw [List.getD_eq_getElem?_getD, hn]
        rfl
      exact h2.symm.trans (h1.trans (hsuf (k + 1) (by omega)))
    have hxe : ((pass1Items tol st k).getD k default).x_end
        = (items.getD k default).x_end := by
      rw [(pass1Items_geom tol st k k).2.1, (hgeom k).2.1]
    rw [hxe, hnxt_eq]
    exact not_lt.mpr (hnores k hbound')
  have hpush := pass1Stack_push tol st k hno
  refine ⟨?_, ?_, ?_, ?_, ?_⟩
  · show (pass1Items tol st k).length = items.length
    rw [pass1Items_length, hlen]
  · intro j
    obtain ⟨ha, hb, hc⟩ := pass1Items_geom tol st k j
    exact ⟨ha.trans (hgeom j).1, hb.trans (hgeom j).2.1, hc.trans (hgeom j).2.2⟩
  · intro j hj
    show (pass1Items tol st k).getD j default = items.getD j default
    rw [pass1Items_getD_ne tol st k j (by omega)]
    exact hsuf j (by omega)
  · intro k'' hk''
    have hkk : k'' = k := by omega
    subst hkk
    exact ⟨_, hpush⟩
  · intro j hj1
    by_cases hjk : j + 1 = k
    · subst hjk
      obtain ⟨rest, hrest⟩ := hstk j rfl
      have hpop : popWhile1 st.items ((st.items.getD (j + 1) default).x_start) tol st.stack
          = StkEnt.item j :: rest := by
        rw [hrest]
        show (if (st.items.getD (j + 1) default).x_start
            ≤ entX st.items (StkEnt.item j) + tol then _ else _) = _
        rw [if_neg]
        rw [not_le]
        show (st.items.getD j default).x_start + tol < (st.items.getD (j + 1) default).x_start
        rw [(hgeom j).1, (hgeom (j + 1)).1]
        exact hstep j (by omega)
      have hylt : entY st.items (StkEnt.item j) < (st.items.getD (j + 1) default).y_start := by
        show (st.items.getD j default).y_start < (st.items.getD (j + 1) default).y_start
        rw [(hgeom j).2.2, (hgeom (j + 1)).2.2]
        exact hy j (by omega)
      have hxlt : entX st.items (StkEnt.item j) + tol
          < (st.items.getD (j + 1) default).x_start := by
        show (st.items.getD j default).x_start + tol < (st.items.getD (j + 1) default).x_start
        rw [(hgeom j).1, (hgeom (j + 1)).1]
        exact hstep j (by omega)
      have hpi : pass1Items tol st (j + 1)
          = st.items.set (j + 1)
              { st.items.getD (j + 1) default with
                list_indent_level := (st.items.getD j default).list_indent_level + 1 } := by
        simp only [pass1Items, hpop, if_pos hylt, if_pos hxlt]
        rfl
      show ((pass1Items tol st (j + 1)).getD (j + 1) default).list_indent_level
          = ((pass1Items tol st (j + 1)).getD j default).list_indent_level + 1
      rw [hpi, getD_set_eq _ _ _ _ (by rw [hlen]; omega), getD_set_ne _ _ _ (by omega)]
    · have h1 := pass1Items_getD_ne tol st k (j + 1) (fun hh => hjk hh.symm)
      have h2 := pass1Items_getD_ne tol st k j (by omega)
      show ((pass1Items tol st k).getD (j + 1) default).list_indent_level
          = ((pass1Items tol st k).getD j default).list_indent_level + 1
      rw [h1, h2]
      exact hlv j (by omega)

theorem c2Inv_fold (tol : ℚ) (seed : Option LI) (items : List LI)
    (hstep : ∀ i, i + 1 < items.length →
      (items.getD i default).x_start + tol < (items.getD (i + 1) default).x_start)
    (hy : ∀ i, i + 1 < items.length →
      (items.getD i default).y_start < (items.getD (i + 1) default).y_start)
    (hnores : ∀ i, i + 1 < items.length →
      (items.getD (i + 1) default).x_start ≤ (items.getD i default).x_end) :
    ∀ k, k ≤ items.length →
      c2Inv items k ((List.range k).foldl (pass1Step tol) ⟨items, seedStack seed, [], 0⟩) := by
  intro k
  induction k with
  | zero =>
    intro _
    exact ⟨rfl, fun j => ⟨rfl, rfl, rfl⟩, fun j _ => rfl,
      fun k' h => absurd h (by omega), fun j h => absurd h (by omega)⟩
  | succ k ih =>
    intro hk1
    rw [List.range_succ, List.foldl_append, List.foldl_cons, List.foldl_nil]
    exact c2Inv_step tol items hstep hy hnores k (by omega) _ (ih (by omega))

/-- C2 as frozen: fresh `ListItem` children whose `x_start`s strictly
increase with each step exceeding the tolerance
(`min_x_indent * page_width`) resolve to non-decreasing levels that grow by
at most 1 per item.  (No constraint on the vertical positions or on column
breaks.) -/
def c2Claim : Prop :=
  ∀ (minXIndent pageWidth : ℚ) (seed : Option LI) (items : List LI),
    (∀ i, i < items.length → (items.getD i default).list_indent_level = 0) →
    (∀ i, i + 1 < items.length →
      (items.getD i default).x_start + minXIndent * pageWidth
        < (items.getD (i + 1) default).x_start) →
    ∀ i, i + 1 < items.length →
      (pass1Levels (minXIndent * pageWidth) seed items).getD i 0
          ≤ (pass1Levels (minXIndent * pageWidth) seed items).getD (i + 1) 0
        ∧ (pass1Levels (minXIndent * pageWidth) seed items).getD (i + 1) 0
          ≤ (pass1Levels (minXIndent * pageWidth) seed items).getD i 0 + 1

/-- C2 fails without a constraint on the vertical order: three children at
x = 0, 10, 20 (tolerance 1) whose third child sits ABOVE the second
(y = 0, 10, 5) resolve to levels 0, 1, 0 — the third child fails the
`y_start` comparison, keeps its default level 0, and the sequence
decreases. -/
theorem c2_counterexample : ¬ c2Claim := by
  intro h
  have h1 := h (1/100) 100 none
    [⟨0, 1000, 0, 0, 0⟩, ⟨10, 1000, 10, 10, 0⟩, ⟨20, 1000, 5, 5, 0⟩]
    (by intro i hi
        simp only [List.length_cons, List.length_nil] at hi
        rcases i with _ | _ | _ | i
        · decide
        · decide
        · decide
        · omega)
    (by intro i hi
        simp only [List.length_cons, List.length_nil] at hi
        rcases i with _ | _ | i
        · decide
        · decide
        · omega) 1 (by decide)
  exact absurd h1.1 (by decide)

/-- **C2 (amended)**: with the additional hypotheses that the children's
`y_start`s strictly increase (each child sits strictly below its
predecessor's top) and that no step is a column break
(`x_start` of the next child does not pass the current child's `x_end`),
the resolved levels are non-decreasing and grow by at most 1 per item
(indeed by exactly 1). -/
theorem c2_theorem (minXIndent pageWidth : ℚ) (seed : Option LI) (items : List LI)
    (_hfresh : ∀ i, i < items.length → (items.getD i default).list_indent_level = 0)
    (hstep : ∀ i, i + 1 < items.length →
      (items.getD i default).x_start + minXIndent * pageWidth
        < (items.getD (i + 1) default).x_start)
    (hy : ∀ i, i + 1 < items.length →
      (items.getD i default).y_start < (items.getD (i + 1) default).y_start)
    (hnores : ∀ i, i + 1 < items.length →
      (items.getD (i + 1) default).x_start ≤ (items.getD i default).x_end) :
    ∀ i, i + 1 < items.length →
      (pass1Levels (minXIndent * pageWidth) seed items).getD i 0
          ≤ (pass1Levels (minXIndent * pageWidth) seed items).getD (i + 1) 0
        ∧ (pass1Levels (minXIndent * pageWidth) seed items).getD (i + 1) 0
          ≤ (pass1Levels (minXIndent * pageWidth) seed items).getD i 0 + 1 := by
  intro i hi
  obtain ⟨hlen, _, _, _, hlv⟩ :=
    c2Inv_fold (minXIndent * pageWidth) seed items hstep hy hnores items.length le_rfl
  have hgl : ∀ j, j < items.length →
      (pass1Levels (minXIndent * pageWidth) seed items).getD j 0
        = ((pass1 (minXIndent * pageWidth) seed items).items.getD j default).list_indent_level := by
    intro j hj
    have hjl : j < (pass1 (minXIndent * pageWidth) seed items).items.length := by
      rw [show (pass1 (minXIndent * pageWidth) seed items).items.length = items.length
        from hlen]
      exact hj
    unfold pass1Levels
    rw [List.getD_eq_getElem?_getD, List.getElem?_map, List.getElem?_eq_getElem hjl]
    simp [List.getD_eq_getElem?_getD, List.getElem?_eq_getElem hjl]
  rw [hgl i (by omega), hgl (i + 1) hi]
  have hsucc := hlv i hi
  rw [show ((List.range items.length).foldl (pass1Step (minXIndent * pageWidth))
      ⟨items, seedStack seed, [], 0⟩) = pass1 (minXIndent * pageWidth) seed items
    from rfl] at hsucc
  omega

/-- Witness for C2 (amended): two strictly-indented, strictly-descending
children resolve to levels 0 and 1. -/
theorem c2_witness :
    (pass1Levels ((1/100) * 100) none [⟨0, 1000, 0, 0, 0⟩, ⟨10, 1000, 10, 10, 0⟩]).getD 0 0
        ≤ (pass1Levels ((1/100) * 100) none
            [⟨0, 1000, 0, 0, 0⟩, ⟨10, 1000, 10, 10, 0⟩]).getD 1 0
      ∧ (pass1Levels ((1/100) * 100) none
            [⟨0, 1000, 0, 0, 0⟩, ⟨10, 1000, 10, 10, 0⟩]).getD 1 0
        ≤ (pass1Levels ((1/100) * 100) none
            [⟨0, 1000, 0, 0, 0⟩, ⟨10, 1000, 10, 10, 0⟩]).getD 0 0 + 1 := by
  exact c2_theorem (1/100) 100 none [⟨0, 1000, 0, 0, 0⟩, ⟨10, 1000, 10, 10, 0⟩]
    (by intro i hi
        simp only [List.length_cons, List.length_nil] at hi
        rcases i with _ | _ | i
        · decide
        · decide
        · omega)
    (by intro i hi
        simp only [List.length_cons, List.length_nil] at hi
        rcases i with _ | i
        · decide
        · omega)
    (by intro i hi
        simp only [List.length_cons, List.length_nil] at hi
        rcases i with _ | i
        · decide
        · omega)
    (by intro i hi
        simp only [List.length_cons, List.length_nil] at hi
        rcases i with _ | i
        · decide
        · omega) 0 (by decide)

end Marker
